import Mathlib

/-!
Shallow embedding of the `mem_arena_handler` allocator
(`src/memory_arena_handler.hpp` / `src/memory_arena_handler.cpp`).

Modelling conventions:
* machine addresses and sizes (`uintptr_t`, `size_t`) are natural numbers;
  every arithmetic step the C code performs on a 64-bit quantity is reduced
  `% 2 ^ 64` exactly where the C code computes it;
* the `arenas` and `free_blocks` arrays are represented by the list of their
  live elements (the C code reads and writes only indices `< len`, plus the
  append slot, so the `arenas_len` / `free_blocks_len` bit-fields always equal
  the length of the live prefix; the embedding represents the live prefix as a
  `List` and its length stands for the length bit-field);
* the 12-bit / 20-bit capacity bit-fields are `Nat` fields; every store into
  them is reduced `% 2 ^ 12` resp. `% 2 ^ 20` exactly as a C bit-field
  assignment truncates;
* `malloc` / `realloc` outcomes are inputs of the transition functions: a
  `Bool` saying whether the system allocation succeeded, and for a new arena
  an `Option Nat` giving the region's base address (`none` = allocation
  failure);
* the nullness of the two array pointers is tracked by two `Bool` fields
  (initially both arrays are null; `resize_*` tests the pointer against null).
-/

namespace MemArena

/-- ARENA_DS_BITS from memory_arena_handler.hpp. -/
def ARENA_DS_BITS : Nat := 12

/-- FREE_BLOCKS_DS_BITS from memory_arena_handler.hpp. -/
def FREE_BLOCKS_DS_BITS : Nat := 20

/-- ARENAS_MAX_CAPACITY = (1 << ARENA_DS_BITS) - 1 = 4095. -/
def ARENAS_MAX_CAPACITY : Nat := 2 ^ ARENA_DS_BITS - 1

/-- DEFAULT_MEMORY_ARENA_ALLOCATION = 1 << 20. -/
def DEFAULT_MEMORY_ARENA_ALLOCATION : Nat := 2 ^ 20

/-- FREE_BLOCKS_MAX_CAPACITY = (1 << FREE_BLOCKS_DS_BITS) - 1 = 1048575. -/
def FREE_BLOCKS_MAX_CAPACITY : Nat := 2 ^ FREE_BLOCKS_DS_BITS - 1

/-- INITIAL_MEMORY_ARENAS_CAPACITY = 3. -/
def INITIAL_MEMORY_ARENAS_CAPACITY : Nat := 3

/-- INITIAL_FREE_BLOCKS_CAPACITY = 50. -/
def INITIAL_FREE_BLOCKS_CAPACITY : Nat := 50

/-- MIN_FREE_BLOCK_SIZE = 256. -/
def MIN_FREE_BLOCK_SIZE : Nat := 256

/-- Modulus of `uintptr_t` / `size_t` arithmetic (64-bit machine words). -/
def UINTPTR_MOD : Nat := 2 ^ 64

/-- Modulus of `uint16_t` arithmetic. -/
def UINT16_MOD : Nat := 2 ^ 16

/-- Modulus of `uint32_t` arithmetic. -/
def UINT32_MOD : Nat := 2 ^ 32

/-- ErrorCode from memory_arena_handler.hpp. -/
inductive ErrorCode where
  | Success
  | OutOfMemory
  | InsufficientResource
deriving DecidableEq

/-- MemoryArena record: base address of the owned region (`mem_block`),
bump cursor (`untouched_mem`), and byte capacity (`size`). -/
structure MemoryArena where
  mem_block : Nat
  untouched_mem : Nat
  size : Nat
deriving DecidableEq

/-- FreeBlock record: start address (`ptr`) and byte count (`size`). -/
structure FreeBlock where
  ptr : Nat
  size : Nat
deriving DecidableEq

/-- HandlerDataStructureInfo: the two capacity bit-fields (12 bits for the
arena list, 20 bits for the free-block list).  The two length bit-fields are
represented by the lengths of the lists in `ArenaHandler`. -/
structure HandlerDataStructureInfo where
  arenas_capacity : Nat
  free_blocks_capacity : Nat
deriving DecidableEq

/-- ArenaHandler: the two index lists, their capacity bit-fields, and the
nullness of the two backing pointers. -/
structure ArenaHandler where
  ds_info : HandlerDataStructureInfo
  arenas_alloc : Bool
  free_blocks_alloc : Bool
  arenas : List MemoryArena
  free_blocks : List FreeBlock
deriving DecidableEq

/-- A freshly created handler: `ds_info = {}` (all bit-fields zero) and both
array pointers null (`arena_create` / default member initializers). -/
def create_handler : ArenaHandler :=
  { ds_info := { arenas_capacity := 0, free_blocks_capacity := 0 }
    arenas_alloc := false
    free_blocks_alloc := false
    arenas := []
    free_blocks := [] }

/-- resize_arenas from memory_arena_handler.cpp.  `malloc_ok` tells whether
the system `malloc` / `realloc` call succeeds.  The doubling is computed in
`uint16_t` and then stored into the 12-bit capacity bit-field, which
truncates `% 2 ^ 12`. -/
def resize_arenas (handler : ArenaHandler) (malloc_ok : Bool) :
    ErrorCode × ArenaHandler :=
  if handler.ds_info.arenas_capacity = ARENAS_MAX_CAPACITY then
    (ErrorCode.InsufficientResource, handler)
  else if handler.arenas_alloc = false then
    if malloc_ok then
      (ErrorCode.Success,
        { handler with
          arenas_alloc := true
          ds_info := { handler.ds_info with
            arenas_capacity :=
              INITIAL_MEMORY_ARENAS_CAPACITY % 2 ^ ARENA_DS_BITS } })
    else (ErrorCode.OutOfMemory, handler)
  else
    let new_capacity := handler.ds_info.arenas_capacity * 2 % UINT16_MOD
    let new_capacity :=
      if new_capacity < handler.ds_info.arenas_capacity then
        ARENAS_MAX_CAPACITY
      else new_capacity
    if malloc_ok then
      (ErrorCode.Success,
        { handler with
          ds_info := { handler.ds_info with
            arenas_capacity := new_capacity % 2 ^ ARENA_DS_BITS } })
    else (ErrorCode.OutOfMemory, handler)

/-- resize_free_blocks from memory_arena_handler.cpp; mirror of
`resize_arenas` with the 20-bit capacity bit-field and `uint32_t`
doubling. -/
def resize_free_blocks (handler : ArenaHandler) (malloc_ok : Bool) :
    ErrorCode × ArenaHandler :=
  if handler.ds_info.free_blocks_capacity = FREE_BLOCKS_MAX_CAPACITY then
    (ErrorCode.InsufficientResource, handler)
  else if handler.free_blocks_alloc = false then
    if malloc_ok then
      (ErrorCode.Success,
        { handler with
          free_blocks_alloc := true
          ds_info := { handler.ds_info with
            free_blocks_capacity :=
              INITIAL_FREE_BLOCKS_CAPACITY % 2 ^ FREE_BLOCKS_DS_BITS } })
    else (ErrorCode.OutOfMemory, handler)
  else
    let new_capacity := handler.ds_info.free_blocks_capacity * 2 % UINT32_MOD
    let new_capacity :=
      if new_capacity < handler.ds_info.free_blocks_capacity then
        FREE_BLOCKS_MAX_CAPACITY
      else new_capacity
    if malloc_ok then
      (ErrorCode.Success,
        { handler with
          ds_info := { handler.ds_info with
            free_blocks_capacity := new_capacity % 2 ^ FREE_BLOCKS_DS_BITS } })
    else (ErrorCode.OutOfMemory, handler)

/-- align_forward from memory_arena_handler.cpp:
`(ptr + alignment - 1) & ~(alignment - 1)` in `uintptr_t` arithmetic.
For `alignment ≥ 1` the 64-bit word `~(alignment - 1)` is
`2 ^ 64 - alignment` (every caller passes a nonzero `uint8_t` alignment). -/
def align_forward (ptr : Nat) (alignment : Nat) : Nat :=
  ((ptr + alignment - 1) % UINTPTR_MOD) &&& (UINTPTR_MOD - alignment)

/-- Loop body of check_free_blocks from memory_arena_handler.cpp, expressed
as structural recursion over the live free-block entries.  Returns `none`
when no block fits, otherwise the returned aligned pointer and the new list
of free blocks (entry removed when the remaining tail is below
`MIN_FREE_BLOCK_SIZE`, updated in place otherwise). -/
def check_free_blocks_aux (size alignment : Nat) :
    List FreeBlock → Option (Nat × List FreeBlock)
  | [] => none
  | free_block :: rest =>
    let aligned_ptr := align_forward free_block.ptr alignment
    let needed_end_addr := (aligned_ptr + size) % UINTPTR_MOD
    let actual_end_addr := (free_block.ptr + free_block.size) % UINTPTR_MOD
    if actual_end_addr < needed_end_addr then
      match check_free_blocks_aux size alignment rest with
      | none => none
      | some (p, rest2) => some (p, free_block :: rest2)
    else if actual_end_addr - needed_end_addr < MIN_FREE_BLOCK_SIZE then
      some (aligned_ptr, rest)
    else
      some (aligned_ptr,
        { ptr := needed_end_addr, size := actual_end_addr - needed_end_addr }
          :: rest)

/-- check_free_blocks from memory_arena_handler.cpp. -/
def check_free_blocks (handler : ArenaHandler) (size alignment : Nat) :
    Option Nat × ArenaHandler :=
  match check_free_blocks_aux size alignment handler.free_blocks with
  | none => (none, handler)
  | some (p, l) => (some p, { handler with free_blocks := l })

/-- The arena loop of ArenaHandler::request_memory (lines 182-202): bump the
first arena whose aligned cursor leaves room for `size` bytes. -/
def bump_scan (size alignment : Nat) :
    List MemoryArena → Option (Nat × List MemoryArena)
  | [] => none
  | arena :: rest =>
    let aligned_ptr := align_forward arena.untouched_mem alignment
    let needed_end_addr := (aligned_ptr + size) % UINTPTR_MOD
    let actual_end_addr := (arena.mem_block + arena.size) % UINTPTR_MOD
    if actual_end_addr < needed_end_addr then
      match bump_scan size alignment rest with
      | none => none
      | some (p, rest2) => some (p, arena :: rest2)
    else
      some (aligned_ptr, { arena with untouched_mem := needed_end_addr } :: rest)

/-- The byte count of a newly appended arena (lines 229-233 of
memory_arena_handler.cpp): `size * 3` in `size_t` arithmetic, replaced by
the default allocation when that is desired and larger. -/
def mem_amount_of (size : Nat) (use_default_allocation : Bool) : Nat :=
  let mem_amount := size * 3 % UINTPTR_MOD
  if use_default_allocation = true ∧
      mem_amount < DEFAULT_MEMORY_ARENA_ALLOCATION then
    DEFAULT_MEMORY_ARENA_ALLOCATION
  else mem_amount

/-- The new-arena tail of ArenaHandler::request_memory (lines 222-246).
`new_region` is the outcome of `malloc(mem_amount)`: the region base address,
or `none` on failure. -/
def append_arena (handler : ArenaHandler) (size alignment : Nat)
    (use_default_allocation : Bool) (new_region : Option Nat) :
    Option Nat × ArenaHandler :=
  match new_region with
  | none => (none, handler)
  | some region =>
    let mem_amount := mem_amount_of size use_default_allocation
    let aligned_ptr := align_forward region alignment
    (some aligned_ptr,
      { handler with
        arenas := handler.arenas ++
          [{ mem_block := region
             untouched_mem := (aligned_ptr + size) % UINTPTR_MOD
             size := mem_amount }] })

/-- ArenaHandler::request_memory from memory_arena_handler.cpp.
`resize_ok` is the outcome of the `realloc`/`malloc` inside a needed
`resize_arenas`; `new_region` is the outcome of the `malloc` for a new
arena's region. -/
def request_memory (handler : ArenaHandler) (size alignment : Nat)
    (use_default_allocation resize_ok : Bool) (new_region : Option Nat) :
    Option Nat × ArenaHandler :=
  match check_free_blocks_aux size alignment handler.free_blocks with
  | some (p, l) => (some p, { handler with free_blocks := l })
  | none =>
    match bump_scan size alignment handler.arenas with
    | some (p, l) => (some p, { handler with arenas := l })
    | none =>
      if handler.arenas.length = handler.ds_info.arenas_capacity then
        match resize_arenas handler resize_ok with
        | (ErrorCode.Success, handler2) =>
          append_arena handler2 size alignment use_default_allocation
            new_region
        | (_, handler2) => (none, handler2)
      else
        append_arena handler size alignment use_default_allocation new_region

/-- The binary-search loop of ArenaHandler::free_memory (lines 252-266),
with an explicit iteration budget (`fuel`); each iteration shrinks
`high - low`, so a budget of `high - low` always reaches the exit. -/
def find_low_loop (blocks : List FreeBlock) (p : Nat) :
    Nat → Nat → Nat → Nat
  | low, _, 0 => low
  | low, high, fuel + 1 =>
    if low < high then
      let mid := low + (high - low) / 2
      if (blocks.getD mid ⟨0, 0⟩).ptr < p then
        find_low_loop blocks p (mid + 1) high fuel
      else
        find_low_loop blocks p low mid fuel
    else low

/-- The insertion index computed by ArenaHandler::free_memory's binary
search: run the loop from `low = 0`, `high = free_blocks_len`. -/
def find_low (blocks : List FreeBlock) (p : Nat) : Nat :=
  find_low_loop blocks p 0 blocks.length blocks.length

/-- The `merge_left` flag of ArenaHandler::free_memory (lines 269-277). -/
def fm_merge_left (blocks : List FreeBlock) (ptr : Nat) (idx : Nat) : Bool :=
  decide (0 < idx) &&
    decide (((blocks.getD (idx - 1) ⟨0, 0⟩).ptr +
      (blocks.getD (idx - 1) ⟨0, 0⟩).size) % UINTPTR_MOD = ptr)

/-- The `merge_right` flag of ArenaHandler::free_memory (lines 279-287). -/
def fm_merge_right (blocks : List FreeBlock) (ptr size : Nat) (idx : Nat) :
    Bool :=
  decide (idx < blocks.length) &&
    decide ((ptr + size) % UINTPTR_MOD = (blocks.getD idx ⟨0, 0⟩).ptr)

/-- ArenaHandler::free_memory from memory_arena_handler.cpp.  `malloc_ok`
is the outcome of the system allocation inside a needed
`resize_free_blocks`. -/
def free_memory (handler : ArenaHandler) (ptr size : Nat) (malloc_ok : Bool) :
    ErrorCode × ArenaHandler :=
  let blocks := handler.free_blocks
  let idx := find_low blocks ptr
  let merge_left := fm_merge_left blocks ptr idx
  let merge_right := fm_merge_right blocks ptr size idx
  if merge_left && merge_right then
    let left_block := blocks.getD (idx - 1) ⟨0, 0⟩
    let right_block := blocks.getD idx ⟨0, 0⟩
    let blocks2 := blocks.set (idx - 1)
      { ptr := left_block.ptr
        size := (left_block.size + (size + right_block.size) % UINTPTR_MOD) %
          UINTPTR_MOD }
    (ErrorCode.Success, { handler with free_blocks := blocks2.eraseIdx idx })
  else if merge_left then
    let left_block := blocks.getD (idx - 1) ⟨0, 0⟩
    (ErrorCode.Success,
      { handler with
        free_blocks := blocks.set (idx - 1)
          { ptr := left_block.ptr
            size := (left_block.size + size) % UINTPTR_MOD } })
  else if merge_right then
    let right_block := blocks.getD idx ⟨0, 0⟩
    (ErrorCode.Success,
      { handler with
        free_blocks := blocks.set idx
          { ptr := ptr
            size := (right_block.size + size) % UINTPTR_MOD } })
  else
    if blocks.length = handler.ds_info.free_blocks_capacity then
      match resize_free_blocks handler malloc_ok with
      | (ErrorCode.Success, handler2) =>
        (ErrorCode.Success,
          { handler2 with free_blocks := blocks.insertIdx idx ⟨ptr, size⟩ })
      | (e, handler2) => (e, handler2)
    else
      (ErrorCode.Success,
        { handler with free_blocks := blocks.insertIdx idx ⟨ptr, size⟩ })

end MemArena

namespace MemArena

/-- C10: the byte count of a newly appended arena is `size * 3` reduced
`% 2 ^ 64` (`size_t` multiplication); consequently for a size above
`2 ^ 64 / 3` (here `2 ^ 64 - 8`, with `use_default_allocation = false`) a
`request_memory` call succeeds while the arena it creates records a
capacity (`2 ^ 64 - 24`) strictly smaller than the requested size. -/
theorem c10_arena_bytes_wrap :
    (∀ size : Nat, mem_amount_of size false = size * 3 % UINTPTR_MOD) ∧
    2 ^ 64 / 3 < 2 ^ 64 - 8 ∧
    (request_memory create_handler (2 ^ 64 - 8) 1 false true (some 64)).1 =
      some 64 ∧
    (request_memory create_handler (2 ^ 64 - 8) 1 false true
        (some 64)).2.arenas.map MemoryArena.size = [2 ^ 64 - 24] ∧
    2 ^ 64 - 24 < 2 ^ 64 - 8 := by
  refine ⟨fun size => by simp [mem_amount_of], by decide, by decide,
    by decide, by decide⟩

/-- C1: evaluation of the growth policy at the failing inputs.  Doubling an
allocated arena list of capacity 3072 (reached from the initial capacity 3
by ten doublings) stores `6144 % 2 ^ 12 = 2048` into the 12-bit capacity
bit-field and returns `Success`, instead of saturating at
`min (2 * 3072) 4095 = 4095`; likewise a free-block list of capacity 819200
grows to `1638400 % 2 ^ 20 = 589824` instead of 1048575.  The hard-ceiling
branch itself (capacity exactly at the maximum) does return
`InsufficientResource`. -/
theorem c1_capacity_doubling_wraps :
    (resize_arenas
        { create_handler with arenas_alloc := true, ds_info := ⟨3072, 0⟩ }
        true).1 = ErrorCode.Success ∧
    (resize_arenas
        { create_handler with arenas_alloc := true, ds_info := ⟨3072, 0⟩ }
        true).2.ds_info.arenas_capacity = 2048 ∧
    min (2 * 3072) ARENAS_MAX_CAPACITY = 4095 ∧
    (resize_free_blocks
        { create_handler with
          free_blocks_alloc := true, ds_info := ⟨0, 819200⟩ }
        true).1 = ErrorCode.Success ∧
    (resize_free_blocks
        { create_handler with
          free_blocks_alloc := true, ds_info := ⟨0, 819200⟩ }
        true).2.ds_info.free_blocks_capacity = 589824 ∧
    min (2 * 819200) FREE_BLOCKS_MAX_CAPACITY = 1048575 ∧
    (resize_arenas
        { create_handler with arenas_alloc := true, ds_info := ⟨4095, 0⟩ }
        true).1 = ErrorCode.InsufficientResource ∧
    (resize_free_blocks
        { create_handler with
          free_blocks_alloc := true, ds_info := ⟨0, 1048575⟩ }
        true).1 = ErrorCode.InsufficientResource := by
  decide

end MemArena

namespace MemArena

/-- For `x < 2 ^ 64` and `j ≤ 64`, masking with the 64-bit word
`~(2 ^ j - 1) = 2 ^ 64 - 2 ^ j` clears the low `j` bits, i.e. rounds `x`
down to a multiple of `2 ^ j`. -/
theorem land_mask_eq {x j : Nat} (hx : x < 2 ^ 64) (hj : j ≤ 64) :
    x &&& (2 ^ 64 - 2 ^ j) = 2 ^ j * (x / 2 ^ j) := by
  have hmask : (2 : Nat) ^ 64 - 2 ^ j = (2 ^ (64 - j) - 1) <<< j := by
    rw [Nat.shiftLeft_eq, Nat.sub_mul, one_mul, ← pow_add]
    congr 2
    omega
  have hdiv : 2 ^ j * (x / 2 ^ j) = (x >>> j) <<< j := by
    rw [Nat.shiftRight_eq_div_pow, Nat.shiftLeft_eq, mul_comm]
  rw [hmask, hdiv]
  apply Nat.eq_of_testBit_eq
  intro i
  rw [Nat.testBit_land, Nat.testBit_shiftLeft, Nat.testBit_shiftLeft,
    Nat.testBit_two_pow_sub_one, Nat.testBit_shiftRight]
  rcases lt_or_le i j with hij | hij
  · have hd : decide (i ≥ j) = false := by simp; omega
    rw [hd]
    simp
  · have hd : decide (i ≥ j) = true := by simp [hij]
    have hixy : j + (i - j) = i := by omega
    rw [hd, hixy]
    rcases lt_or_le i 64 with h64 | h64
    · have hd2 : decide (i - j < 64 - j) = true := by simp; omega
      rw [hd2]
      simp
    · have hxb : x.testBit i = false := by
        apply Nat.testBit_lt_two_pow
        exact lt_of_lt_of_le hx (Nat.pow_le_pow_right (by norm_num) h64)
      have hd2 : decide (i - j < 64 - j) = false := by simp; omega
      rw [hxb, hd2]
      simp

/-- For a power-of-two alignment that fits, `align_forward` is rounding up
to the next multiple of `2 ^ j`. -/
theorem align_forward_pow2 {a j : Nat} (hj : j ≤ 64) (ha : a + 2 ^ j ≤ 2 ^ 64) :
    align_forward a (2 ^ j) = 2 ^ j * ((a + 2 ^ j - 1) / 2 ^ j) := by
  have hpos : 0 < 2 ^ j := pow_pos (by norm_num) j
  have h1 : a + 2 ^ j - 1 < 2 ^ 64 := by omega
  unfold align_forward UINTPTR_MOD
  rw [Nat.mod_eq_of_lt h1]
  exact land_mask_eq h1 hj

/-- The aligned-forward address is at least the input address. -/
theorem align_forward_ge {a j : Nat} (hj : j ≤ 64) (ha : a + 2 ^ j ≤ 2 ^ 64) :
    a ≤ align_forward a (2 ^ j) := by
  rw [align_forward_pow2 hj ha]
  have hpos : 0 < 2 ^ j := pow_pos (by norm_num) j
  have hdm := Nat.div_add_mod (a + 2 ^ j - 1) (2 ^ j)
  have hml : (a + 2 ^ j - 1) % 2 ^ j < 2 ^ j := Nat.mod_lt _ hpos
  omega

/-- The aligned-forward address advances by less than the alignment. -/
theorem align_forward_le {a j : Nat} (hj : j ≤ 64) (ha : a + 2 ^ j ≤ 2 ^ 64) :
    align_forward a (2 ^ j) ≤ a + 2 ^ j - 1 := by
  rw [align_forward_pow2 hj ha]
  have hpos : 0 < 2 ^ j := pow_pos (by norm_num) j
  have hdm := Nat.div_add_mod (a + 2 ^ j - 1) (2 ^ j)
  omega

/-- The result of `align_forward` at a power-of-two alignment is a multiple
of that alignment, for every input address (no side condition: both the
`% 2 ^ 64` reduction and the mask preserve divisibility by `2 ^ j`). -/
theorem align_forward_mod {a j : Nat} (hj : j ≤ 64) :
    align_forward a (2 ^ j) % 2 ^ j = 0 := by
  unfold align_forward UINTPTR_MOD
  rw [← Nat.and_pow_two_sub_one_eq_mod, Nat.land_assoc]
  have hdvd : (2 : Nat) ^ j ∣ 2 ^ 64 - 2 ^ j :=
    Nat.dvd_sub' (pow_dvd_pow 2 hj) dvd_rfl
  have h0 : ((2 : Nat) ^ 64 - 2 ^ j) &&& (2 ^ j - 1) = 0 := by
    obtain ⟨c, hc⟩ := hdvd
    rw [Nat.and_pow_two_sub_one_eq_mod, hc, Nat.mul_mod_right]
  rw [h0, Nat.and_zero]

/-- Any pointer returned by the free-list scan is an `align_forward`
result. -/
theorem check_free_blocks_aux_aligned {size k : Nat} :
    ∀ {l : List FreeBlock} {p : Nat} {l2 : List FreeBlock},
      check_free_blocks_aux size k l = some (p, l2) →
      ∃ a, p = align_forward a k := by
  intro l
  induction l with
  | nil => intro p l2 h; simp [check_free_blocks_aux] at h
  | cons b rest ih =>
    intro p l2 h
    simp only [check_free_blocks_aux] at h
    split at h
    · cases hrec : check_free_blocks_aux size k rest with
      | none => rw [hrec] at h; simp at h
      | some pr =>
        obtain ⟨p2, lr⟩ := pr
        rw [hrec] at h
        simp only [Option.some.injEq, Prod.mk.injEq] at h
        obtain ⟨hp, -⟩ := h
        obtain ⟨a, ha⟩ := ih hrec
        exact ⟨a, by rw [← hp, ha]⟩
    · split at h
      · simp only [Option.some.injEq, Prod.mk.injEq] at h
        exact ⟨b.ptr, h.1.symm⟩
      · simp only [Option.some.injEq, Prod.mk.injEq] at h
        exact ⟨b.ptr, h.1.symm⟩

/-- Any pointer returned by the arena bump scan is an `align_forward`
result. -/
theorem bump_scan_aligned {size k : Nat} :
    ∀ {l : List MemoryArena} {p : Nat} {l2 : List MemoryArena},
      bump_scan size k l = some (p, l2) → ∃ a, p = align_forward a k := by
  intro l
  induction l with
  | nil => intro p l2 h; simp [bump_scan] at h
  | cons b rest ih =>
    intro p l2 h
    simp only [bump_scan] at h
    split at h
    · cases hrec : bump_scan size k rest with
      | none => rw [hrec] at h; simp at h
      | some pr =>
        obtain ⟨p2, lr⟩ := pr
        rw [hrec] at h
        simp only [Option.some.injEq, Prod.mk.injEq] at h
        obtain ⟨hp, -⟩ := h
        obtain ⟨a, ha⟩ := ih hrec
        exact ⟨a, by rw [← hp, ha]⟩
    · simp only [Option.some.injEq, Prod.mk.injEq] at h
      exact ⟨b.untouched_mem, h.1.symm⟩

/-- C5: alignment postcondition.  Every non-null address returned by
`request_memory` with a power-of-two alignment `2 ^ j ∈ [1, 255]` is
divisible by the alignment, on all three serving paths (free-list hit,
existing-arena bump, new arena). -/
theorem c5_request_memory_aligned (handler : ArenaHandler)
    (size k j : Nat) (ud ok : Bool) (nr : Option Nat) (p : Nat)
    (h2 : ArenaHandler) (hk : k = 2 ^ j) (hj : j ≤ 7)
    (hreq : request_memory handler size k ud ok nr = (some p, h2)) :
    p % k = 0 := by
  subst hk
  have hj64 : j ≤ 64 := by omega
  rw [request_memory] at hreq
  cases hc : check_free_blocks_aux size (2 ^ j) handler.free_blocks with
  | some pl =>
    obtain ⟨pp, ll⟩ := pl
    rw [hc] at hreq
    simp only [Prod.mk.injEq, Option.some.injEq] at hreq
    obtain ⟨a, ha⟩ := check_free_blocks_aux_aligned hc
    rw [← hreq.1, ha]
    exact align_forward_mod hj64
  | none =>
    rw [hc] at hreq
    cases hb : bump_scan size (2 ^ j) handler.arenas with
    | some pl =>
      obtain ⟨pp, ll⟩ := pl
      rw [hb] at hreq
      simp only [Prod.mk.injEq, Option.some.injEq] at hreq
      obtain ⟨a, ha⟩ := bump_scan_aligned hb
      rw [← hreq.1, ha]
      exact align_forward_mod hj64
    | none =>
      rw [hb] at hreq
      have happ : ∀ hh : ArenaHandler,
          append_arena hh size (2 ^ j) ud nr = (some p, h2) → p % 2 ^ j = 0 := by
        intro hh happ
        cases nr with
        | none => simp [append_arena] at happ
        | some r =>
          simp only [append_arena, Prod.mk.injEq, Option.some.injEq] at happ
          rw [← happ.1]
          exact align_forward_mod hj64
      dsimp only at hreq
      split at hreq
      · split at hreq
        · exact happ _ hreq
        · simp at hreq
      · exact happ handler hreq

/-- C5 witness: a concrete request served from a fresh arena returns the
8-aligned address 16. -/
theorem c5_witness :
    (8 : Nat) = 2 ^ 3 ∧
    request_memory create_handler 1 8 true true (some 16) =
      (some 16, ⟨⟨3, 0⟩, true, false, [⟨16, 17, 1048576⟩], []⟩) ∧
    (16 : Nat) % 8 = 0 := by
  refine ⟨by norm_num, by decide, ?_⟩
  exact c5_request_memory_aligned create_handler 1 8 3 true true (some 16) 16
    ⟨⟨3, 0⟩, true, false, [⟨16, 17, 1048576⟩], []⟩ (by norm_num) (by norm_num)
    (by decide)

end MemArena

namespace MemArena

/-- resize_arenas only touches the capacity bit-field and the allocation
flag; both index lists are unchanged. -/
theorem resize_arenas_lists (handler : ArenaHandler) (ok : Bool) :
    (resize_arenas handler ok).2.arenas = handler.arenas ∧
    (resize_arenas handler ok).2.free_blocks = handler.free_blocks := by
  rw [resize_arenas]
  repeat' split
  all_goals exact ⟨rfl, rfl⟩

/-- resize_free_blocks only touches the capacity bit-field and the
allocation flag; both index lists are unchanged. -/
theorem resize_free_blocks_lists (handler : ArenaHandler) (ok : Bool) :
    (resize_free_blocks handler ok).2.arenas = handler.arenas ∧
    (resize_free_blocks handler ok).2.free_blocks = handler.free_blocks := by
  rw [resize_free_blocks]
  repeat' split
  all_goals exact ⟨rfl, rfl⟩

/-- On an unsuccessful return, resize_free_blocks leaves the handler
unchanged. -/
theorem resize_free_blocks_cases (handler : ArenaHandler) (ok : Bool) :
    (resize_free_blocks handler ok).1 = ErrorCode.Success ∨
    (resize_free_blocks handler ok).2 = handler := by
  rw [resize_free_blocks]
  repeat' split
  all_goals simp

/-- On an unsuccessful return, resize_free_blocks leaves the handler
unchanged. -/
theorem resize_free_blocks_err (handler : ArenaHandler) (ok : Bool)
    (h : (resize_free_blocks handler ok).1 ≠ ErrorCode.Success) :
    (resize_free_blocks handler ok).2 = handler := by
  rcases resize_free_blocks_cases handler ok with hs | hframe
  · exact absurd hs h
  · exact hframe

/-- Every entry of the free-block list after a successful free-list scan is
either an entry that was already present or the in-place updated entry,
whose length the scan guarantees to be at least MIN_FREE_BLOCK_SIZE. -/
theorem check_free_blocks_aux_mem {size k : Nat} :
    ∀ {l : List FreeBlock} {p : Nat} {l2 : List FreeBlock},
      check_free_blocks_aux size k l = some (p, l2) →
      ∀ b ∈ l2, b ∈ l ∨ MIN_FREE_BLOCK_SIZE ≤ b.size := by
  intro l
  induction l with
  | nil => intro p l2 h; simp [check_free_blocks_aux] at h
  | cons hd rest ih =>
    intro p l2 h b hb
    simp only [check_free_blocks_aux] at h
    split at h
    · cases hrec : check_free_blocks_aux size k rest with
      | none => rw [hrec] at h; simp at h
      | some pr =>
        obtain ⟨p2, lr⟩ := pr
        rw [hrec] at h
        simp only [Option.some.injEq, Prod.mk.injEq] at h
        obtain ⟨-, hl⟩ := h
        rw [← hl] at hb
        rcases List.mem_cons.mp hb with hbh | hbt
        · exact Or.inl (by rw [hbh]; exact List.mem_cons_self hd rest)
        · rcases ih hrec b hbt with hin | hbig
          · exact Or.inl (List.mem_cons_of_mem hd hin)
          · exact Or.inr hbig
    · split at h
      · simp only [Option.some.injEq, Prod.mk.injEq] at h
        obtain ⟨-, hl⟩ := h
        rw [← hl] at hb
        exact Or.inl (List.mem_cons_of_mem hd hb)
      · rename_i hskip hsmall
        simp only [Option.some.injEq, Prod.mk.injEq] at h
        obtain ⟨-, hl⟩ := h
        rw [← hl] at hb
        rcases List.mem_cons.mp hb with hbh | hbt
        · refine Or.inr ?_
          rw [hbh]
          exact Nat.le_of_not_lt hsmall
        · exact Or.inl (List.mem_cons_of_mem hd hbt)

/-- C4 (amended): request_memory never introduces a free-list entry shorter
than MIN_FREE_BLOCK_SIZE: every entry present after the call was already
present before it, or has length at least 256 (the retained tail of a
first-fit split).  Entries shorter than 256 can be created and kept by
free_memory, which stores the caller's size verbatim. -/
theorem c4_request_memory_no_small_blocks (handler : ArenaHandler)
    (size k : Nat) (ud ok : Bool) (nr : Option Nat) (b : FreeBlock)
    (hb : b ∈ (request_memory handler size k ud ok nr).2.free_blocks) :
    b ∈ handler.free_blocks ∨ MIN_FREE_BLOCK_SIZE ≤ b.size := by
  rw [request_memory] at hb
  cases hc : check_free_blocks_aux size k handler.free_blocks with
  | some pl =>
    obtain ⟨pp, ll⟩ := pl
    rw [hc] at hb
    dsimp only at hb
    exact check_free_blocks_aux_mem hc b hb
  | none =>
    rw [hc] at hb
    cases hbs : bump_scan size k handler.arenas with
    | some pl =>
      obtain ⟨pp, ll⟩ := pl
      rw [hbs] at hb
      dsimp only at hb
      exact Or.inl hb
    | none =>
      rw [hbs] at hb
      have happ : ∀ hh : ArenaHandler, hh.free_blocks = handler.free_blocks →
          b ∈ (append_arena hh size k ud nr).2.free_blocks →
          b ∈ handler.free_blocks ∨ MIN_FREE_BLOCK_SIZE ≤ b.size := by
        intro hh hfb hbb
        cases nr with
        | none => dsimp only [append_arena] at hbb; rw [← hfb]; exact Or.inl hbb
        | some r =>
          dsimp only [append_arena] at hbb
          rw [← hfb]
          exact Or.inl hbb
      dsimp only at hb
      split at hb
      · split at hb
        · rename_i heq
          refine happ _ ?_ hb
          have := (resize_arenas_lists handler ok).2
          rw [heq] at this
          exact this
        · dsimp only at hb
          rename_i heq
          have := (resize_arenas_lists handler ok).2
          rw [heq] at this
          dsimp only at this
          rw [this] at hb
          exact Or.inl hb
      · exact happ handler rfl hb

/-- C4 counterexample: allocate 100 bytes, allocate 100 padding bytes, then
free the first allocation; free_memory returns Success and the free-list
holds an entry of length 100 < 256 after the operation completes. -/
theorem c4_counterexample :
    (request_memory create_handler 100 1 true true (some 4096)).1 =
      some 4096 ∧
    (request_memory create_handler 100 1 true true (some 4096)).2 =
      ⟨⟨3, 0⟩, true, false, [⟨4096, 4196, 1048576⟩], []⟩ ∧
    (request_memory ⟨⟨3, 0⟩, true, false, [⟨4096, 4196, 1048576⟩], []⟩
        100 1 true true none).1 = some 4196 ∧
    (request_memory ⟨⟨3, 0⟩, true, false, [⟨4096, 4196, 1048576⟩], []⟩
        100 1 true true none).2 =
      ⟨⟨3, 0⟩, true, false, [⟨4096, 4296, 1048576⟩], []⟩ ∧
    (free_memory ⟨⟨3, 0⟩, true, false, [⟨4096, 4296, 1048576⟩], []⟩
        4096 100 true).1 = ErrorCode.Success ∧
    (free_memory ⟨⟨3, 0⟩, true, false, [⟨4096, 4296, 1048576⟩], []⟩
        4096 100 true).2.free_blocks = [⟨4096, 100⟩] ∧
    (100 : Nat) < MIN_FREE_BLOCK_SIZE := by
  decide

/-- C4 witness: a request that splits a 1000-byte free block keeps the
500-byte tail, and 500 is above MIN_FREE_BLOCK_SIZE. -/
theorem c4_witness :
    (⟨4596, 500⟩ : FreeBlock) ∈
      (request_memory ⟨⟨0, 50⟩, false, true, [], [⟨4096, 1000⟩]⟩
        500 1 true true none).2.free_blocks ∧
    ((⟨4596, 500⟩ : FreeBlock) ∈ [(⟨4096, 1000⟩ : FreeBlock)] ∨
      MIN_FREE_BLOCK_SIZE ≤ 500) := by
  refine ⟨by decide, ?_⟩
  exact c4_request_memory_no_small_blocks
    ⟨⟨0, 50⟩, false, true, [], [⟨4096, 1000⟩]⟩ 500 1 true true none
    ⟨4596, 500⟩ (by decide)

end MemArena

namespace MemArena

/-- A free block accepts the request when the aligned start plus the
requested size stays within the block. -/
def fb_fits (size k : Nat) (b : FreeBlock) : Prop :=
  align_forward b.ptr k + size ≤ b.ptr + b.size

instance (size k : Nat) (b : FreeBlock) : Decidable (fb_fits size k b) := by
  unfold fb_fits
  infer_instance

/-- C6: small-remainder elision.  When the free-list scan consumes the
first fitting block (index `i`, aligned pointer `p`), with tail
`T = (b.ptr + b.size) - (p + size)`: if `T < MIN_FREE_BLOCK_SIZE` the entry
is removed (suffix shifted one position left) and the count drops by
exactly one; if `T ≥ MIN_FREE_BLOCK_SIZE` the entry is updated in place to
`{ptr := p + size, size := T}` and the count is unchanged; in both cases
`p` is returned. -/
theorem c6_small_remainder_elision (size k j : Nat) :
    ∀ (l : List FreeBlock) (i : Nat) (hi : i < l.length),
      k = 2 ^ j → j ≤ 7 →
      (∀ b ∈ l, b.ptr + b.size + k + size ≤ 2 ^ 64) →
      (∀ m (hm : m < i), ¬ fb_fits size k (l.get ⟨m, lt_trans hm hi⟩)) →
      fb_fits size k (l.get ⟨i, hi⟩) →
      ((l.get ⟨i, hi⟩).ptr + (l.get ⟨i, hi⟩).size -
          (align_forward (l.get ⟨i, hi⟩).ptr k + size) < MIN_FREE_BLOCK_SIZE →
        check_free_blocks_aux size k l =
          some (align_forward (l.get ⟨i, hi⟩).ptr k, l.eraseIdx i) ∧
        (l.eraseIdx i).length + 1 = l.length) ∧
      (MIN_FREE_BLOCK_SIZE ≤ (l.get ⟨i, hi⟩).ptr + (l.get ⟨i, hi⟩).size -
          (align_forward (l.get ⟨i, hi⟩).ptr k + size) →
        check_free_blocks_aux size k l =
          some (align_forward (l.get ⟨i, hi⟩).ptr k,
            l.set i
              { ptr := align_forward (l.get ⟨i, hi⟩).ptr k + size
                size := (l.get ⟨i, hi⟩).ptr + (l.get ⟨i, hi⟩).size -
                  (align_forward (l.get ⟨i, hi⟩).ptr k + size) }) ∧
        (l.set i
          { ptr := align_forward (l.get ⟨i, hi⟩).ptr k + size
            size := (l.get ⟨i, hi⟩).ptr + (l.get ⟨i, hi⟩).size -
              (align_forward (l.get ⟨i, hi⟩).ptr k + size) }).length =
          l.length) := by
  intro l
  induction l with
  | nil => intro i hi; exact absurd hi (by simp)
  | cons hd rest ih =>
    intro i hi hk hj hbnd hfirst hfit
    subst hk
    have hj64 : j ≤ 64 := by omega
    have hp2 : 0 < 2 ^ j := pow_pos (by norm_num) j
    have hbhd := hbnd hd (List.mem_cons_self hd rest)
    have hale : align_forward hd.ptr (2 ^ j) ≤ hd.ptr + 2 ^ j - 1 :=
      align_forward_le hj64 (by omega)
    have hneed : (align_forward hd.ptr (2 ^ j) + size) % UINTPTR_MOD =
        align_forward hd.ptr (2 ^ j) + size := by
      apply Nat.mod_eq_of_lt
      unfold UINTPTR_MOD
      omega
    have hact : (hd.ptr + hd.size) % UINTPTR_MOD = hd.ptr + hd.size := by
      apply Nat.mod_eq_of_lt
      unfold UINTPTR_MOD
      omega
    cases i with
    | zero =>
      have hfit0 : align_forward hd.ptr (2 ^ j) + size ≤ hd.ptr + hd.size := hfit
      have hcond : ¬ ((hd.ptr + hd.size) % UINTPTR_MOD <
          (align_forward hd.ptr (2 ^ j) + size) % UINTPTR_MOD) := by
        rw [hneed, hact]
        omega
      constructor
      · intro hT
        constructor
        · simp only [check_free_blocks_aux]
          rw [if_neg hcond, hneed, hact, if_pos (by simpa using hT)]
          simp [List.eraseIdx]
        · simp [List.eraseIdx]
      · intro hT
        constructor
        · simp only [check_free_blocks_aux]
          rw [if_neg hcond, hneed, hact,
            if_neg (by simpa using Nat.not_lt.mpr hT)]
          simp [List.set]
        · exact List.length_set _ _ _
    | succ m =>
      have hm : m < rest.length := by
        have := hi
        simp at this
        omega
      have hnofit : ¬ fb_fits size (2 ^ j) hd := by
        have h0 := hfirst 0 (Nat.succ_pos m)
        simpa using h0
      have hcond : (hd.ptr + hd.size) % UINTPTR_MOD <
          (align_forward hd.ptr (2 ^ j) + size) % UINTPTR_MOD := by
        rw [hneed, hact]
        exact Nat.lt_of_not_le hnofit
      have hgetc : (hd :: rest).get ⟨m + 1, hi⟩ = rest.get ⟨m, hm⟩ := rfl
      have ihm := ih m hm rfl hj
        (fun b hb => hbnd b (List.mem_cons_of_mem hd hb))
        (fun n hn => by
          have := hfirst (n + 1) (Nat.succ_lt_succ hn)
          simpa using this)
        (by rw [← hgetc]; exact hfit)
      constructor
      · intro hT
        obtain ⟨heq, hlen⟩ := ihm.1 (by rw [← hgetc]; exact hT)
        constructor
        · simp only [check_free_blocks_aux]
          rw [if_pos hcond, heq, hgetc]
          rfl
        · rw [List.eraseIdx_cons_succ, List.length_cons, List.length_cons]
          omega
      · intro hT
        obtain ⟨heq, hlen⟩ := ihm.2 (by rw [← hgetc]; exact hT)
        constructor
        · simp only [check_free_blocks_aux]
          rw [if_pos hcond, heq, hgetc]
          rfl
        · exact List.length_set _ _ _

/-- C6 witness: consuming 800 bytes of a 1000-byte block at alignment 1
leaves a 200-byte tail, below MIN_FREE_BLOCK_SIZE, so the entry is removed
and the count drops from 1 to 0; the returned pointer is the block start. -/
theorem c6_witness :
    check_free_blocks_aux 800 1 [⟨4096, 1000⟩] = some (4096, []) ∧
    (([] : List FreeBlock)).length + 1 = 1 := by
  have h := c6_small_remainder_elision 800 1 0 [⟨4096, 1000⟩] 0 (by norm_num)
    (by norm_num) (by norm_num) (by decide)
    (fun m hm => absurd hm (Nat.not_lt_zero m)) (by decide)
  exact h.1 (by decide)

end MemArena

namespace MemArena

/-- The documented arena invariant: `region ≤ cursor ≤ region + capacity`. -/
def arena_inv (a : MemoryArena) : Prop :=
  a.mem_block ≤ a.untouched_mem ∧ a.untouched_mem ≤ a.mem_block + a.size

instance (a : MemoryArena) : Decidable (arena_inv a) := by
  unfold arena_inv
  infer_instance

/-- The served interval `[p, p + size)` lies within the arena's region. -/
def arena_contains (a : MemoryArena) (p size : Nat) : Prop :=
  a.mem_block ≤ p ∧ p + size ≤ a.mem_block + a.size

instance (a : MemoryArena) (p size : Nat) :
    Decidable (arena_contains a p size) := by
  unfold arena_contains
  infer_instance

/-- A successful bump scan preserves the arena invariant on every arena and
serves the request from inside one of them. -/
theorem bump_scan_inv {size j : Nat} (hj : j ≤ 7) :
    ∀ {l : List MemoryArena} {p : Nat} {l2 : List MemoryArena},
      (∀ a ∈ l, a.mem_block + a.size + 2 ^ j + size ≤ 2 ^ 64) →
      (∀ a ∈ l, arena_inv a) →
      bump_scan size (2 ^ j) l = some (p, l2) →
      (∀ a ∈ l2, arena_inv a) ∧ ∃ a ∈ l2, arena_contains a p size := by
  intro l
  induction l with
  | nil => intro p l2 _ _ h; simp [bump_scan] at h
  | cons hd rest ih =>
    intro p l2 hbnd hinv h
    have hj64 : j ≤ 64 := by omega
    have hp2 : 0 < 2 ^ j := pow_pos (by norm_num) j
    have hbhd := hbnd hd (List.mem_cons_self hd rest)
    have hihd := hinv hd (List.mem_cons_self hd rest)
    simp only [bump_scan] at h
    split at h
    · cases hrec : bump_scan size (2 ^ j) rest with
      | none => rw [hrec] at h; simp at h
      | some pr =>
        obtain ⟨p2, lr⟩ := pr
        rw [hrec] at h
        simp only [Option.some.injEq, Prod.mk.injEq] at h
        obtain ⟨hp, hl⟩ := h
        obtain ⟨hinv2, a, ha, hcont⟩ :=
          ih (fun a ha => hbnd a (List.mem_cons_of_mem hd ha))
            (fun a ha => hinv a (List.mem_cons_of_mem hd ha)) hrec
        subst hp
        rw [← hl]
        refine ⟨?_, a, List.mem_cons_of_mem hd ha, hcont⟩
        intro b hb
        rcases List.mem_cons.mp hb with hbh | hbt
        · rw [hbh]; exact hihd
        · exact hinv2 b hbt
    · rename_i hfits
      have hau : hd.untouched_mem + 2 ^ j ≤ 2 ^ 64 := by
        obtain ⟨h1, h2⟩ := hihd
        omega
      have hage : hd.untouched_mem ≤ align_forward hd.untouched_mem (2 ^ j) :=
        align_forward_ge hj64 hau
      have hale : align_forward hd.untouched_mem (2 ^ j) ≤
          hd.untouched_mem + 2 ^ j - 1 := align_forward_le hj64 hau
      have hneed : (align_forward hd.untouched_mem (2 ^ j) + size) %
          UINTPTR_MOD = align_forward hd.untouched_mem (2 ^ j) + size := by
        apply Nat.mod_eq_of_lt
        unfold UINTPTR_MOD
        obtain ⟨h1, h2⟩ := hihd
        omega
      have hact : (hd.mem_block + hd.size) % UINTPTR_MOD =
          hd.mem_block + hd.size := by
        apply Nat.mod_eq_of_lt
        unfold UINTPTR_MOD
        omega
      rw [hneed, hact] at hfits
      have hfit2 : align_forward hd.untouched_mem (2 ^ j) + size ≤
          hd.mem_block + hd.size := Nat.le_of_not_lt hfits
      simp only [Option.some.injEq, Prod.mk.injEq] at h
      obtain ⟨hp, hl⟩ := h
      rw [hneed] at hl
      subst hp
      rw [← hl]
      constructor
      · intro b hb
        rcases List.mem_cons.mp hb with hbh | hbt
        · rw [hbh]
          constructor
          · exact le_trans hihd.1 (le_trans hage (Nat.le_add_right _ size))
          · exact hfit2
        · exact hinv b (List.mem_cons_of_mem hd hbt)
      · refine ⟨_, List.mem_cons_self _ _, ?_, ?_⟩
        · exact le_trans hihd.1 hage
        · exact hfit2

/-- C2 counterexample: `request_memory(1, 16, false)` on a fresh handler
with the 3-byte region allocated at address 8 returns the non-null
16-aligned pointer 16, but `[16, 17)` is not inside the new arena's region
`[8, 11)` and the arena records `cursor = 17 > region + capacity = 11`:
the new-arena path performs no bounds check. -/
theorem c2_counterexample :
    0 < 1 ∧ (16 : Nat) = 2 ^ 4 ∧
    request_memory create_handler 1 16 false true (some 8) =
      (some 16, ⟨⟨3, 0⟩, true, false, [⟨8, 17, 3⟩], []⟩) ∧
    ¬ arena_inv ⟨8, 17, 3⟩ ∧
    ¬ arena_contains ⟨8, 17, 3⟩ 16 1 := by
  decide

/-- C2 (amended): under the additional hypotheses that address arithmetic
does not wrap and that a newly appended arena accommodates the aligned
request (`align_forward region k + size ≤ region + mem_amount`), every
`request_memory` call that returns a non-null pointer preserves
`region ≤ cursor ≤ region + capacity` on every arena, and a request not
served from the free-list is contained in the serving arena's region. -/
theorem c2_request_memory_arena_invariant (handler : ArenaHandler)
    (size k j : Nat) (ud ok : Bool) (nr : Option Nat) (p : Nat)
    (h2 : ArenaHandler)
    (hk : k = 2 ^ j) (hj : j ≤ 7)
    (hbnd : ∀ a ∈ handler.arenas, a.mem_block + a.size + k + size ≤ 2 ^ 64)
    (hinv : ∀ a ∈ handler.arenas, arena_inv a)
    (hnr : ∀ r, nr = some r →
      align_forward r k + size ≤ r + mem_amount_of size ud ∧
      r + mem_amount_of size ud + k ≤ 2 ^ 64)
    (hreq : request_memory handler size k ud ok nr = (some p, h2)) :
    (∀ a ∈ h2.arenas, arena_inv a) ∧
    (check_free_blocks_aux size k handler.free_blocks = none →
      ∃ a ∈ h2.arenas, arena_contains a p size) := by
  subst hk
  have hj64 : j ≤ 64 := by omega
  have hp2 : 0 < 2 ^ j := pow_pos (by norm_num) j
  rw [request_memory] at hreq
  cases hc : check_free_blocks_aux size (2 ^ j) handler.free_blocks with
  | some pl =>
    obtain ⟨pp, ll⟩ := pl
    rw [hc] at hreq
    simp only [Prod.mk.injEq, Option.some.injEq] at hreq
    obtain ⟨hp, hh⟩ := hreq
    rw [← hh]
    refine ⟨fun a ha => hinv a ha, fun hnone => ?_⟩
    exact absurd hnone (by simp)
  | none =>
    rw [hc] at hreq
    cases hb : bump_scan size (2 ^ j) handler.arenas with
    | some pl =>
      obtain ⟨pp, ll⟩ := pl
      rw [hb] at hreq
      simp only [Prod.mk.injEq, Option.some.injEq] at hreq
      obtain ⟨hp, hh⟩ := hreq
      obtain ⟨hinv2, hcont⟩ := bump_scan_inv hj hbnd hinv hb
      rw [← hh, ← hp]
      exact ⟨hinv2, fun _ => hcont⟩
    | none =>
      rw [hb] at hreq
      have happ : ∀ hh : ArenaHandler, hh.arenas = handler.arenas →
          append_arena hh size (2 ^ j) ud nr = (some p, h2) →
          (∀ a ∈ h2.arenas, arena_inv a) ∧
          ∃ a ∈ h2.arenas, arena_contains a p size := by
        intro hh hha happx
        cases nr with
        | none => simp [append_arena] at happx
        | some r =>
          obtain ⟨hfit, hbndr⟩ := hnr r rfl
          have hrk : r + 2 ^ j ≤ 2 ^ 64 := by omega
          have hage : r ≤ align_forward r (2 ^ j) := align_forward_ge hj64 hrk
          have huend : (align_forward r (2 ^ j) + size) % UINTPTR_MOD =
              align_forward r (2 ^ j) + size := by
            apply Nat.mod_eq_of_lt
            unfold UINTPTR_MOD
            omega
          simp only [append_arena, Prod.mk.injEq, Option.some.injEq] at happx
          obtain ⟨hp, hhh⟩ := happx
          rw [← hhh]
          have hnew : arena_inv
              ⟨r, (align_forward r (2 ^ j) + size) % UINTPTR_MOD,
                mem_amount_of size ud⟩ := by
            rw [huend]
            exact ⟨le_trans hage (Nat.le_add_right _ size), hfit⟩
          constructor
          · intro a ha
            simp only [List.mem_append, List.mem_singleton] at ha
            rcases ha with hold | hnw
            · rw [hha] at hold
              exact hinv a hold
            · rw [hnw]
              exact hnew
          · refine ⟨_, List.mem_append_right _ (List.mem_singleton_self _),
              ?_, ?_⟩
            · rw [← hp]
              exact hage
            · rw [← hp, huend]
              exact hfit
      dsimp only at hreq
      split at hreq
      · split at hreq
        · rename_i heq
          have hfr := (resize_arenas_lists handler ok).1
          rw [heq] at hfr
          obtain ⟨h1, h2c⟩ := happ _ hfr hreq
          exact ⟨h1, fun _ => h2c⟩
        · simp at hreq
      · obtain ⟨h1, h2c⟩ := happ handler rfl hreq
        exact ⟨h1, fun _ => h2c⟩

/-- C2 witness: a bump allocation of 100 bytes at alignment 8 from an
arena `[4096, 4096 + 2 ^ 20)` keeps the invariant on every arena and is
contained in the serving arena. -/
theorem c2_witness :
    (∀ a ∈ [(⟨4096, 4196, 1048576⟩ : MemoryArena)], arena_inv a) ∧
    (check_free_blocks_aux 100 8 ([] : List FreeBlock) = none →
      ∃ a ∈ [(⟨4096, 4196, 1048576⟩ : MemoryArena)],
        arena_contains a 4096 100) := by
  exact c2_request_memory_arena_invariant
    ⟨⟨3, 0⟩, true, false, [⟨4096, 4096, 1048576⟩], []⟩ 100 8 3 true true none
    4096 ⟨⟨3, 0⟩, true, false, [⟨4096, 4196, 1048576⟩], []⟩ (by norm_num)
    (by norm_num) (by decide) (by decide) (fun r hr => by cases hr) (by decide)

end MemArena

namespace MemArena

/-- An arena accepts the request when the aligned cursor plus the requested
size stays within the arena's region. -/
def arena_fits (size k : Nat) (a : MemoryArena) : Prop :=
  align_forward a.untouched_mem k + size ≤ a.mem_block + a.size

instance (size k : Nat) (a : MemoryArena) : Decidable (arena_fits size k a) := by
  unfold arena_fits
  infer_instance

/-- When no arena fits, the bump scan returns none. -/
theorem bump_scan_none (size j : Nat) (hj : j ≤ 7) :
    ∀ (l : List MemoryArena),
      (∀ a ∈ l, a.mem_block + a.size + 2 ^ j + size ≤ 2 ^ 64) →
      (∀ a ∈ l, arena_inv a) →
      (∀ a ∈ l, ¬ arena_fits size (2 ^ j) a) →
      bump_scan size (2 ^ j) l = none := by
  intro l
  induction l with
  | nil => intro _ _ _; rfl
  | cons hd rest ih =>
    intro hbnd hinv hnf
    have hj64 : j ≤ 64 := by omega
    have hp2 : 0 < 2 ^ j := pow_pos (by norm_num) j
    have hbhd := hbnd hd (List.mem_cons_self hd rest)
    have hihd := hinv hd (List.mem_cons_self hd rest)
    have hau : hd.untouched_mem + 2 ^ j ≤ 2 ^ 64 := by
      obtain ⟨h1, h2⟩ := hihd
      omega
    have hale : align_forward hd.untouched_mem (2 ^ j) ≤
        hd.untouched_mem + 2 ^ j - 1 := align_forward_le hj64 hau
    have hneed : (align_forward hd.untouched_mem (2 ^ j) + size) %
        UINTPTR_MOD = align_forward hd.untouched_mem (2 ^ j) + size := by
      apply Nat.mod_eq_of_lt
      unfold UINTPTR_MOD
      obtain ⟨h1, h2⟩ := hihd
      omega
    have hact : (hd.mem_block + hd.size) % UINTPTR_MOD =
        hd.mem_block + hd.size := by
      apply Nat.mod_eq_of_lt
      unfold UINTPTR_MOD
      omega
    have hcond : (hd.mem_block + hd.size) % UINTPTR_MOD <
        (align_forward hd.untouched_mem (2 ^ j) + size) % UINTPTR_MOD := by
      rw [hneed, hact]
      exact Nat.lt_of_not_le (hnf hd (List.mem_cons_self hd rest))
    simp only [bump_scan]
    rw [if_pos hcond,
      ih (fun a ha => hbnd a (List.mem_cons_of_mem hd ha))
        (fun a ha => hinv a (List.mem_cons_of_mem hd ha))
        (fun a ha => hnf a (List.mem_cons_of_mem hd ha))]

/-- The bump scan serves the request from the first arena that fits,
advancing exactly that arena's cursor to the aligned pointer plus the
size. -/
theorem bump_scan_first_fit (size j : Nat) :
    ∀ (l : List MemoryArena) (i : Nat) (hi : i < l.length),
      j ≤ 7 →
      (∀ a ∈ l, a.mem_block + a.size + 2 ^ j + size ≤ 2 ^ 64) →
      (∀ a ∈ l, arena_inv a) →
      (∀ m (hm : m < i),
        ¬ arena_fits size (2 ^ j) (l.get ⟨m, lt_trans hm hi⟩)) →
      arena_fits size (2 ^ j) (l.get ⟨i, hi⟩) →
      bump_scan size (2 ^ j) l =
        some (align_forward (l.get ⟨i, hi⟩).untouched_mem (2 ^ j),
          l.set i
            ⟨(l.get ⟨i, hi⟩).mem_block,
              align_forward (l.get ⟨i, hi⟩).untouched_mem (2 ^ j) + size,
              (l.get ⟨i, hi⟩).size⟩) := by
  intro l
  induction l with
  | nil => intro i hi; exact absurd hi (by simp)
  | cons hd rest ih =>
    intro i hi hj hbnd hinv hfirst hfit
    have hj64 : j ≤ 64 := by omega
    have hp2 : 0 < 2 ^ j := pow_pos (by norm_num) j
    have hbhd := hbnd hd (List.mem_cons_self hd rest)
    have hihd := hinv hd (List.mem_cons_self hd rest)
    have hau : hd.untouched_mem + 2 ^ j ≤ 2 ^ 64 := by
      obtain ⟨h1, h2⟩ := hihd
      omega
    have hale : align_forward hd.untouched_mem (2 ^ j) ≤
        hd.untouched_mem + 2 ^ j - 1 := align_forward_le hj64 hau
    have hneed : (align_forward hd.untouched_mem (2 ^ j) + size) %
        UINTPTR_MOD = align_forward hd.untouched_mem (2 ^ j) + size := by
      apply Nat.mod_eq_of_lt
      unfold UINTPTR_MOD
      obtain ⟨h1, h2⟩ := hihd
      omega
    have hact : (hd.mem_block + hd.size) % UINTPTR_MOD =
        hd.mem_block + hd.size := by
      apply Nat.mod_eq_of_lt
      unfold UINTPTR_MOD
      omega
    cases i with
    | zero =>
      have hfit0 : align_forward hd.untouched_mem (2 ^ j) + size ≤
          hd.mem_block + hd.size := hfit
      have hcond : ¬ ((hd.mem_block + hd.size) % UINTPTR_MOD <
          (align_forward hd.untouched_mem (2 ^ j) + size) % UINTPTR_MOD) := by
        rw [hneed, hact]
        omega
      simp only [bump_scan]
      rw [if_neg hcond, hneed]
      rfl
    | succ m =>
      have hm : m < rest.length := by
        have := hi
        simp at this
        omega
      have hnofit : ¬ arena_fits size (2 ^ j) hd := by
        have h0 := hfirst 0 (Nat.succ_pos m)
        simpa using h0
      have hcond : (hd.mem_block + hd.size) % UINTPTR_MOD <
          (align_forward hd.untouched_mem (2 ^ j) + size) % UINTPTR_MOD := by
        rw [hneed, hact]
        exact Nat.lt_of_not_le hnofit
      have hgetc : (hd :: rest).get ⟨m + 1, hi⟩ = rest.get ⟨m, hm⟩ := rfl
      have ihm := ih m hm hj
        (fun a ha => hbnd a (List.mem_cons_of_mem hd ha))
        (fun a ha => hinv a (List.mem_cons_of_mem hd ha))
        (fun n hn => by
          have := hfirst (n + 1) (Nat.succ_lt_succ hn)
          simpa using this)
        (by rw [← hgetc]; exact hfit)
      simp only [bump_scan]
      rw [if_pos hcond, ihm, hgetc]
      rfl

/-- For a product that does not overflow, the appended arena's byte count
is `max (size * 3) (DEFAULT if use_default else 0)`. -/
theorem mem_amount_of_eq_max (size : Nat) (ud : Bool)
    (h3 : size * 3 < 2 ^ 64) :
    mem_amount_of size ud =
      max (size * 3)
        (if ud = true then DEFAULT_MEMORY_ARENA_ALLOCATION else 0) := by
  unfold mem_amount_of UINTPTR_MOD
  rw [Nat.mod_eq_of_lt h3]
  cases ud with
  | false => simp
  | true =>
    by_cases hlt : size * 3 < DEFAULT_MEMORY_ARENA_ALLOCATION
    · rw [if_pos ⟨rfl, hlt⟩, if_pos rfl]
      omega
    · rw [if_neg (by simp [hlt]), if_pos rfl]
      omega

/-- When the capacity ceiling has not been reached and the system
allocation succeeds, resize_arenas succeeds. -/
theorem resize_arenas_success (handler : ArenaHandler)
    (hcap : handler.ds_info.arenas_capacity ≠ ARENAS_MAX_CAPACITY) :
    (resize_arenas handler true).1 = ErrorCode.Success := by
  rw [resize_arenas, if_neg hcap]
  by_cases hal : handler.arenas_alloc = false
  · rw [if_pos hal]
    rfl
  · rw [if_neg hal]
    rfl

/-- C7: dispatch order of request_memory.  (1) A free-list hit is returned
as is, touching nothing but the free-list.  (2) When the free-list misses,
the request is served by bumping the first arena (in creation order) that
fits.  (3) When no arena fits either, the arena list is grown if full and
a new arena of exactly `max (size*3) (DEFAULT if use_default else 0)`
bytes is appended and serves the request, regardless of the older arenas'
remaining tail space. -/
theorem c7_dispatch_order (handler : ArenaHandler) (size k j : Nat)
    (ud ok : Bool) (nr : Option Nat)
    (hk : k = 2 ^ j) (hj : j ≤ 7)
    (hbnd : ∀ a ∈ handler.arenas, a.mem_block + a.size + k + size ≤ 2 ^ 64)
    (hinv : ∀ a ∈ handler.arenas, arena_inv a)
    (h3 : size * 3 < 2 ^ 64) :
    (∀ p l, check_free_blocks_aux size k handler.free_blocks = some (p, l) →
      request_memory handler size k ud ok nr =
        (some p, { handler with free_blocks := l })) ∧
    (check_free_blocks_aux size k handler.free_blocks = none →
      ∀ i (hi : i < handler.arenas.length),
        (∀ m (hm : m < i),
          ¬ arena_fits size k (handler.arenas.get ⟨m, lt_trans hm hi⟩)) →
        arena_fits size k (handler.arenas.get ⟨i, hi⟩) →
        request_memory handler size k ud ok nr =
          (some (align_forward (handler.arenas.get ⟨i, hi⟩).untouched_mem k),
            { handler with arenas := (handler.arenas.set i
              ⟨(handler.arenas.get ⟨i, hi⟩).mem_block,
                align_forward (handler.arenas.get ⟨i, hi⟩).untouched_mem k +
                  size,
                (handler.arenas.get ⟨i, hi⟩).size⟩) })) ∧
    (check_free_blocks_aux size k handler.free_blocks = none →
      (∀ a ∈ handler.arenas, ¬ arena_fits size k a) →
      ∀ r, nr = some r →
      (handler.arenas.length = handler.ds_info.arenas_capacity →
        ok = true ∧ handler.ds_info.arenas_capacity ≠ ARENAS_MAX_CAPACITY) →
      (request_memory handler size k ud ok nr).1 = some (align_forward r k) ∧
      (request_memory handler size k ud ok nr).2.arenas =
        handler.arenas ++
          [⟨r, (align_forward r k + size) % UINTPTR_MOD,
            max (size * 3)
              (if ud = true then DEFAULT_MEMORY_ARENA_ALLOCATION else 0)⟩]) := by
  subst hk
  refine ⟨?_, ?_, ?_⟩
  · intro p l hsome
    rw [request_memory, hsome]
  · intro hnone i hi hfirst hfit
    rw [request_memory, hnone,
      bump_scan_first_fit size j handler.arenas i hi hj hbnd hinv hfirst hfit]
  · intro hnone hnf r hr hfull
    subst hr
    rw [request_memory, hnone, bump_scan_none size j hj handler.arenas hbnd hinv hnf]
    dsimp only
    split
    · rename_i hlen
      obtain ⟨hok, hcap⟩ := hfull hlen
      subst hok
      rcases hrz : resize_arenas handler true with ⟨e, hh⟩
      have he : e = ErrorCode.Success := by
        have := resize_arenas_success handler hcap
        rw [hrz] at this
        exact this
      subst he
      have hfr := (resize_arenas_lists handler true).1
      rw [hrz] at hfr
      dsimp only at hfr
      simp only [append_arena]
      rw [mem_amount_of_eq_max size ud h3, hfr]
      exact ⟨by trivial, by trivial⟩
    · simp only [append_arena]
      rw [mem_amount_of_eq_max size ud h3]
      exact ⟨by trivial, by trivial⟩

/-- C7 witness: a request that the free-list can serve is served from it
and the handler is otherwise untouched. -/
theorem c7_witness :
    request_memory ⟨⟨0, 50⟩, false, true, [], [⟨4096, 512⟩]⟩ 512 1 true true
        none =
      (some 4096, ⟨⟨0, 50⟩, false, true, [], []⟩) := by
  exact (c7_dispatch_order ⟨⟨0, 50⟩, false, true, [], [⟨4096, 512⟩]⟩ 512 1 0
    true true none (by norm_num) (by norm_num) (by decide) (by decide)
    (by norm_num)).1 4096 [] (by decide)

end MemArena

namespace MemArena

/-- C8: free_memory returns a non-Success code iff neither neighbor merges,
the free-list is full (length equals the capacity bit-field), and growing
it fails; whenever free_memory errs, the error is OutOfMemory or
InsufficientResource and the handler (in particular the free-list, length
and contents) is exactly as before the call; all three coalescing cases
return Success. -/
theorem c8_free_memory_error_semantics (handler : ArenaHandler)
    (ptr size : Nat) (ok : Bool) :
    ((free_memory handler ptr size ok).1 ≠ ErrorCode.Success ↔
      (fm_merge_left handler.free_blocks ptr
          (find_low handler.free_blocks ptr) = false ∧
        fm_merge_right handler.free_blocks ptr size
          (find_low handler.free_blocks ptr) = false ∧
        handler.free_blocks.length = handler.ds_info.free_blocks_capacity ∧
        (resize_free_blocks handler ok).1 ≠ ErrorCode.Success)) ∧
    ((free_memory handler ptr size ok).1 ≠ ErrorCode.Success →
      (free_memory handler ptr size ok).2 = handler) ∧
    ((free_memory handler ptr size ok).1 ≠ ErrorCode.Success →
      (free_memory handler ptr size ok).1 = ErrorCode.OutOfMemory ∨
      (free_memory handler ptr size ok).1 = ErrorCode.InsufficientResource) := by
  simp only [free_memory]
  cases hml : fm_merge_left handler.free_blocks ptr
      (find_low handler.free_blocks ptr) <;>
    cases hmr : fm_merge_right handler.free_blocks ptr size
      (find_low handler.free_blocks ptr)
  case false.false =>
    by_cases hlen : handler.free_blocks.length =
        handler.ds_info.free_blocks_capacity
    · rcases hrz : resize_free_blocks handler ok with ⟨e, hh⟩
      cases e
      · simp [hlen, hrz]
      · have h2 : hh = handler := by
          have := resize_free_blocks_err handler ok (by rw [hrz]; simp)
          rw [hrz] at this
          exact this
        simp [hlen, hrz, h2]
      · have h2 : hh = handler := by
          have := resize_free_blocks_err handler ok (by rw [hrz]; simp)
          rw [hrz] at this
          exact this
        simp [hlen, hrz, h2]
    · simp [hlen]
  case false.true => simp
  case true.false => simp
  case true.true => simp

end MemArena

namespace MemArena

/-- At alignment 1 (mask `~0`), align_forward is the identity on 64-bit
addresses. -/
theorem align_forward_one (a : Nat) : align_forward a 1 = a % UINTPTR_MOD := by
  unfold align_forward UINTPTR_MOD
  rw [Nat.add_sub_cancel, Nat.and_pow_two_sub_one_eq_mod]
  exact Nat.mod_mod_of_dvd a dvd_rfl

/-- C9: round trip on a fresh arena.  For every `size > 0` (and any region
address `r` the system allocator returns, with `r + size` below `2 ^ 64`),
`p := request_memory(size, 1, true)` on a fresh handler returns `p = r`;
`free_memory(p, size)` returns Success; and a second
`request_memory(size, 1, true)` returns exactly `p` again, with the
free-list length back to 0. -/
theorem c9_round_trip (size r : Nat) (ok2 : Bool) (nr2 : Option Nat)
    (hs : 0 < size) (hr : r + size < 2 ^ 64) :
    (request_memory create_handler size 1 true true (some r)).1 = some r ∧
    (free_memory (request_memory create_handler size 1 true true (some r)).2
        r size true).1 = ErrorCode.Success ∧
    (request_memory
        (free_memory (request_memory create_handler size 1 true true
          (some r)).2 r size true).2 size 1 true ok2 nr2).1 = some r ∧
    (request_memory
        (free_memory (request_memory create_handler size 1 true true
          (some r)).2 r size true).2 size 1 true ok2
        nr2).2.free_blocks.length = 0 := by
  have hal : align_forward r 1 = r := by
    rw [align_forward_one]
    exact Nat.mod_eq_of_lt (by unfold UINTPTR_MOD; omega)
  have hr2 : r + size < 18446744073709551616 := by omega
  have h1 : request_memory create_handler size 1 true true (some r) =
      (some r, ⟨⟨3, 0⟩, true, false,
        [⟨r, r + size, mem_amount_of size true⟩], []⟩) := by
    simp [request_memory, create_handler, check_free_blocks_aux, bump_scan,
      resize_arenas, append_arena, hal, ARENAS_MAX_CAPACITY, ARENA_DS_BITS,
      INITIAL_MEMORY_ARENAS_CAPACITY, UINTPTR_MOD, Nat.mod_eq_of_lt hr,
      Nat.mod_eq_of_lt hr2]
  have h2 : free_memory (⟨⟨3, 0⟩, true, false,
      [⟨r, r + size, mem_amount_of size true⟩], []⟩ : ArenaHandler) r size
      true =
      (ErrorCode.Success, ⟨⟨3, 50⟩, true, true,
        [⟨r, r + size, mem_amount_of size true⟩], [⟨r, size⟩]⟩) := by
    simp [free_memory, find_low, find_low_loop, fm_merge_left, fm_merge_right,
      resize_free_blocks, FREE_BLOCKS_MAX_CAPACITY, FREE_BLOCKS_DS_BITS,
      INITIAL_FREE_BLOCKS_CAPACITY, List.insertIdx]
  have h3 : request_memory (⟨⟨3, 50⟩, true, true,
      [⟨r, r + size, mem_amount_of size true⟩], [⟨r, size⟩]⟩ : ArenaHandler)
      size 1 true ok2 nr2 =
      (some r, ⟨⟨3, 50⟩, true, true,
        [⟨r, r + size, mem_amount_of size true⟩], []⟩) := by
    simp [request_memory, check_free_blocks_aux, hal, UINTPTR_MOD,
      Nat.mod_eq_of_lt hr, Nat.mod_eq_of_lt hr2, MIN_FREE_BLOCK_SIZE]
  simp [h1, h2, h3]

/-- C9 witness: the round trip at size 512 with the fresh arena's region at
address 4096. -/
theorem c9_witness :
    (request_memory create_handler 512 1 true true (some 4096)).1 =
      some 4096 ∧
    (free_memory (request_memory create_handler 512 1 true true
        (some 4096)).2 4096 512 true).1 = ErrorCode.Success ∧
    (request_memory (free_memory (request_memory create_handler 512 1 true
        true (some 4096)).2 4096 512 true).2 512 1 true true none).1 =
      some 4096 ∧
    (request_memory (free_memory (request_memory create_handler 512 1 true
        true (some 4096)).2 4096 512 true).2 512 1 true true
        none).2.free_blocks.length = 0 :=
  c9_round_trip 512 4096 true none (by norm_num) (by norm_num)

end MemArena

namespace MemArena

/-- The free-list is strictly ascending by start address. -/
def blocks_sorted (l : List FreeBlock) : Prop :=
  l.Pairwise (fun a b => a.ptr < b.ptr)

/-- No two adjacent free-list entries abut (`end` of one equals `start` of
the next). -/
def blocks_nonabut (l : List FreeBlock) : Prop :=
  l.Chain' (fun a b => a.ptr + a.size ≠ b.ptr)

/-- The union of the free-list intervals, pointwise: some entry covers the
byte at address `x`. -/
def covers (l : List FreeBlock) (x : Nat) : Prop :=
  ∃ b ∈ l, b.ptr ≤ x ∧ x < b.ptr + b.size

/-- The freed interval `[ptr, ptr + size)` is disjoint from the entry `b`. -/
def fb_disjoint (ptr size : Nat) (b : FreeBlock) : Prop :=
  ∀ x, ptr ≤ x → x < ptr + size → ¬ (b.ptr ≤ x ∧ x < b.ptr + b.size)

/-- In a sorted free-list, start addresses are monotone in the index. -/
theorem blocks_sorted_le {l : List FreeBlock} (h : blocks_sorted l)
    {i j : Nat} (hij : i ≤ j) (hj : j < l.length) :
    (l.getD i ⟨0, 0⟩).ptr ≤ (l.getD j ⟨0, 0⟩).ptr := by
  rcases Nat.lt_or_ge i j with hlt | hge
  · have hi : i < l.length := lt_trans hlt hj
    rw [List.getD_eq_getElem _ _ hi, List.getD_eq_getElem _ _ hj]
    exact le_of_lt (List.pairwise_iff_get.mp h ⟨i, hi⟩ ⟨j, hj⟩ hlt)
  · have heq : i = j := le_antisymm hij hge
    rw [heq]

/-- Invariant of the binary-search loop of free_memory: starting from a
window `[low, high)` whose outside is already classified, the loop returns
the leftmost index whose entry's start is at least `p`. -/
theorem find_low_loop_spec (blocks : List FreeBlock) (p : Nat)
    (hsorted : blocks_sorted blocks) :
    ∀ (fuel low high : Nat), low ≤ high → high ≤ blocks.length →
      high - low ≤ fuel →
      (∀ i, i < low → (blocks.getD i ⟨0, 0⟩).ptr < p) →
      (∀ i, high ≤ i → i < blocks.length →
        p ≤ (blocks.getD i ⟨0, 0⟩).ptr) →
      low ≤ find_low_loop blocks p low high fuel ∧
      find_low_loop blocks p low high fuel ≤ high ∧
      (∀ i, i < find_low_loop blocks p low high fuel →
        (blocks.getD i ⟨0, 0⟩).ptr < p) ∧
      (∀ i, find_low_loop blocks p low high fuel ≤ i →
        i < blocks.length → p ≤ (blocks.getD i ⟨0, 0⟩).ptr) := by
  intro fuel
  induction fuel with
  | zero =>
    intro low high hlh hhl hfuel hlow hhigh
    have heq : low = high := by omega
    subst heq
    simp only [find_low_loop]
    exact ⟨le_rfl, le_rfl, hlow, hhigh⟩
  | succ fuel ihf =>
    intro low high hlh hhl hfuel hlow hhigh
    simp only [find_low_loop]
    by_cases hlt : low < high
    · rw [if_pos hlt]
      by_cases hc : (blocks.getD (low + (high - low) / 2) ⟨0, 0⟩).ptr < p
      · rw [if_pos hc]
        have hres := ihf (low + (high - low) / 2 + 1) high (by omega) hhl
          (by omega)
          (fun i hi => lt_of_le_of_lt
            (blocks_sorted_le hsorted (by omega) (by omega)) hc)
          hhigh
        exact ⟨by omega, hres.2.1, hres.2.2.1, hres.2.2.2⟩
      · rw [if_neg hc]
        have hres := ihf low (low + (high - low) / 2) (by omega) (by omega)
          (by omega) hlow
          (fun i hi hil => le_trans (Nat.le_of_not_lt hc)
            (blocks_sorted_le hsorted hi hil))
        exact ⟨hres.1, by omega, hres.2.2.1, hres.2.2.2⟩
    · rw [if_neg hlt]
      have heq : low = high := by omega
      subst heq
      exact ⟨le_rfl, le_rfl, hlow, hhigh⟩

/-- The insertion index of free_memory's binary search: it is at most the
length, every entry before it starts strictly below `p`, and every entry
from it on starts at or above `p`. -/
theorem find_low_spec (blocks : List FreeBlock) (p : Nat)
    (hsorted : blocks_sorted blocks) :
    find_low blocks p ≤ blocks.length ∧
    (∀ i, i < find_low blocks p → (blocks.getD i ⟨0, 0⟩).ptr < p) ∧
    (∀ i, find_low blocks p ≤ i → i < blocks.length →
      p ≤ (blocks.getD i ⟨0, 0⟩).ptr) := by
  have h := find_low_loop_spec blocks p hsorted blocks.length 0
    blocks.length (by omega) le_rfl (by omega)
    (fun i hi => absurd hi (Nat.not_lt_zero i))
    (fun i hi hil => absurd (lt_of_lt_of_le hil hi) (lt_irrefl i))
  exact ⟨h.2.1, h.2.2.1, h.2.2.2⟩

/-- Writing index `i` is splicing the new value between the surrounding
take and drop. -/
theorem set_shape {α : Type} :
    ∀ (l : List α) (i : Nat), i < l.length → ∀ v : α,
      l.set i v = l.take i ++ v :: l.drop (i + 1) := by
  intro l
  induction l with
  | nil => intro i hi; exact absurd hi (by simp)
  | cons hd tl ih =>
    intro i hi v
    cases i with
    | zero => rfl
    | succ m =>
      have hm : m < tl.length := by simpa using hi
      simp only [List.set, List.take, List.drop, List.cons_append,
        List.cons.injEq]
      exact ⟨trivial, ih m hm v⟩

/-- Inserting at index `i` is splicing the new value between take and
drop. -/
theorem insertIdx_shape {α : Type} :
    ∀ (l : List α) (i : Nat), i ≤ l.length → ∀ v : α,
      l.insertIdx i v = l.take i ++ v :: l.drop i := by
  intro l
  induction l with
  | nil =>
    intro i hi v
    have : i = 0 := by simpa using hi
    subst this
    rfl
  | cons hd tl ih =>
    intro i hi v
    cases i with
    | zero => rfl
    | succ m =>
      have hm : m ≤ tl.length := by simpa using hi
      simp only [List.insertIdx_succ_cons, List.take, List.drop,
        List.cons_append, List.cons.injEq]
      exact ⟨trivial, ih m hm v⟩

/-- Erasing the element that sits right after a known prefix. -/
theorem eraseIdx_append_length {α : Type} :
    ∀ (A B : List α), (A ++ B).eraseIdx A.length = A ++ B.tail := by
  intro A
  induction A with
  | nil => intro B; cases B <;> rfl
  | cons hd tl ih =>
    intro B
    simp only [List.cons_append, List.length_cons, List.eraseIdx_cons_succ,
      List.cons.injEq]
    exact ⟨trivial, ih B⟩

/-- A list is its take, the element at `i`, and the drop past `i`. -/
theorem take_get_drop {α : Type} (d : α) :
    ∀ (l : List α) (i : Nat), i < l.length →
      l = l.take i ++ l.getD i d :: l.drop (i + 1) := by
  intro l
  induction l with
  | nil => intro i hi; exact absurd hi (by simp)
  | cons hd tl ih =>
    intro i hi
    cases i with
    | zero => rfl
    | succ m =>
      have hm : m < tl.length := by simpa using hi
      simp only [List.take, List.cons_append, List.cons.injEq]
      exact ⟨trivial, by simpa using ih m hm⟩

/-- Pointwise coverage distributes over list concatenation. -/
theorem covers_append (A B : List FreeBlock) (x : Nat) :
    covers (A ++ B) x ↔ covers A x ∨ covers B x := by
  unfold covers
  constructor
  · rintro ⟨b, hb, hx⟩
    rcases List.mem_append.mp hb with h | h
    · exact Or.inl ⟨b, h, hx⟩
    · exact Or.inr ⟨b, h, hx⟩
  · rintro (⟨b, hb, hx⟩ | ⟨b, hb, hx⟩)
    · exact ⟨b, List.mem_append_left _ hb, hx⟩
    · exact ⟨b, List.mem_append_right _ hb, hx⟩

/-- Pointwise coverage of a cons cell. -/
theorem covers_cons (b : FreeBlock) (l : List FreeBlock) (x : Nat) :
    covers (b :: l) x ↔ (b.ptr ≤ x ∧ x < b.ptr + b.size) ∨ covers l x := by
  unfold covers
  constructor
  · rintro ⟨c, hc, hx⟩
    rcases List.mem_cons.mp hc with h | h
    · exact Or.inl (h ▸ hx)
    · exact Or.inr ⟨c, h, hx⟩
  · rintro (hx | ⟨c, hc, hx⟩)
    · exact ⟨b, List.mem_cons_self b l, hx⟩
    · exact ⟨c, List.mem_cons_of_mem b hc, hx⟩

end MemArena

namespace MemArena

/-- Splitting the order and non-abutment invariants of a decomposed
free-list. -/
theorem split_sorted_nonabut (A B : List FreeBlock) (c : FreeBlock)
    (hs : blocks_sorted (A ++ c :: B)) (hn : blocks_nonabut (A ++ c :: B)) :
    blocks_sorted A ∧ blocks_sorted B ∧
    (∀ a ∈ A, a.ptr < c.ptr) ∧ (∀ b ∈ B, c.ptr < b.ptr) ∧
    (∀ a ∈ A, ∀ b ∈ B, a.ptr < b.ptr) ∧
    blocks_nonabut A ∧ blocks_nonabut B ∧
    (∀ a ∈ A.getLast?, a.ptr + a.size ≠ c.ptr) ∧
    (∀ b ∈ B.head?, c.ptr + c.size ≠ b.ptr) := by
  unfold blocks_sorted at hs
  unfold blocks_nonabut at hn
  rw [List.pairwise_append] at hs
  rw [List.chain'_append] at hn
  obtain ⟨psA, pscB, cross⟩ := hs
  obtain ⟨cnA, cncB, clink⟩ := hn
  rw [List.pairwise_cons] at pscB
  rw [List.chain'_cons'] at cncB
  exact ⟨psA, pscB.2, fun a ha => cross a ha c (List.mem_cons_self c B),
    pscB.1, fun a ha b hb => cross a ha b (List.mem_cons_of_mem c hb),
    cnA, cncB.2, fun a ha => clink a ha c (by simp), cncB.1⟩

/-- Rebuilding the order and non-abutment invariants around a replacement
block. -/
theorem rebuild_sorted_nonabut (A B : List FreeBlock) (nb : FreeBlock)
    (hsA : blocks_sorted A) (hsB : blocks_sorted B)
    (hnA : blocks_nonabut A) (hnB : blocks_nonabut B)
    (hAnb : ∀ a ∈ A, a.ptr < nb.ptr)
    (hnbB : ∀ b ∈ B, nb.ptr < b.ptr)
    (hlastA : ∀ a ∈ A.getLast?, a.ptr + a.size ≠ nb.ptr)
    (hheadB : ∀ b ∈ B.head?, nb.ptr + nb.size ≠ b.ptr) :
    blocks_sorted (A ++ nb :: B) ∧ blocks_nonabut (A ++ nb :: B) := by
  constructor
  · unfold blocks_sorted
    rw [List.pairwise_append]
    refine ⟨hsA, ?_, ?_⟩
    · rw [List.pairwise_cons]
      exact ⟨hnbB, hsB⟩
    · intro a ha b hb
      rcases List.mem_cons.mp hb with rfl | hbB
      · exact hAnb a ha
      · exact lt_trans (hAnb a ha) (hnbB b hbB)
  · unfold blocks_nonabut
    rw [List.chain'_append]
    refine ⟨hnA, ?_, ?_⟩
    · rw [List.chain'_cons']
      exact ⟨hheadB, hnB⟩
    · intro x hx y hy
      have hynb : y = nb := by simpa using hy.symm
      rw [hynb]
      exact hlastA x hx

/-- Every element of a take is an indexed entry below the cut. -/
theorem mem_take_idx (l : List FreeBlock) (n : Nat) (b : FreeBlock)
    (hb : b ∈ l.take n) :
    ∃ i, i < n ∧ ∃ h : i < l.length, b = l.getD i ⟨0, 0⟩ := by
  obtain ⟨⟨m, hm⟩, heq⟩ := List.mem_iff_get.mp hb
  have hml : m < l.length := by
    rw [List.length_take] at hm
    omega
  have hmn : m < n := by
    rw [List.length_take] at hm
    omega
  refine ⟨m, hmn, hml, ?_⟩
  rw [List.getD_eq_getElem _ _ hml, ← heq]
  exact (List.get_take l hml hmn).symm

/-- Every element of a drop is an indexed entry past the cut. -/
theorem mem_drop_idx (l : List FreeBlock) (n : Nat) (b : FreeBlock)
    (hb : b ∈ l.drop n) :
    ∃ i, n ≤ i ∧ ∃ h : i < l.length, b = l.getD i ⟨0, 0⟩ := by
  obtain ⟨⟨m, hm⟩, heq⟩ := List.mem_iff_get.mp hb
  have hml : n + m < l.length := by
    rw [List.length_drop] at hm
    omega
  refine ⟨n + m, by omega, hml, ?_⟩
  rw [List.getD_eq_getElem _ _ hml, ← heq]
  exact (List.get_drop l hml).symm

/-- The last entry of a nonempty take. -/
theorem getLast_take (l : List FreeBlock) (n : Nat) (hn : 0 < n)
    (hnl : n ≤ l.length) :
    (l.take n).getLast? = some (l.getD (n - 1) ⟨0, 0⟩) := by
  obtain ⟨m, rfl⟩ : ∃ m, n = m + 1 := ⟨n - 1, by omega⟩
  have hm : m < l.length := by omega
  have htake : l.take (m + 1) = l.take m ++ [l.getD m ⟨0, 0⟩] := by
    rw [List.take_succ, List.getElem?_eq_getElem hm,
      List.getD_eq_getElem _ _ hm]
    rfl
  rw [htake, List.getLast?_concat]
  simp

/-- The first entry of a nonempty drop. -/
theorem head_drop (l : List FreeBlock) (n : Nat) (hn : n < l.length) :
    (l.drop n).head? = some (l.getD n ⟨0, 0⟩) := by
  rw [List.drop_eq_getElem_cons hn, List.getD_eq_getElem _ _ hn]
  rfl

end MemArena

namespace MemArena

/-- In a sorted free-list, start addresses are strictly monotone. -/
theorem blocks_sorted_lt {l : List FreeBlock} (h : blocks_sorted l)
    {i j : Nat} (hij : i < j) (hj : j < l.length) :
    (l.getD i ⟨0, 0⟩).ptr < (l.getD j ⟨0, 0⟩).ptr := by
  have hi : i < l.length := lt_trans hij hj
  rw [List.getD_eq_getElem _ _ hi, List.getD_eq_getElem _ _ hj]
  exact List.pairwise_iff_get.mp h ⟨i, hi⟩ ⟨j, hj⟩ hij

/-- Reduction of a 64-bit machine word that does not wrap. -/
theorem umod_eq (a : Nat) (h : a < 2 ^ 64) : a % UINTPTR_MOD = a := by
  unfold UINTPTR_MOD
  exact Nat.mod_eq_of_lt h

/-- The no-merge branch of free_memory: inserting the freed interval at the
binary-search index preserves order and non-abutment and adds exactly the
freed interval to the union. -/
theorem c3aux_insert (l : List FreeBlock) (ptr size : Nat)
    (hsorted : blocks_sorted l) (hnab : blocks_nonabut l)
    (hpos : ∀ b ∈ l, 0 < b.size)
    (hdisj : ∀ b ∈ l, fb_disjoint ptr size b)
    (hbnd : ∀ b ∈ l, b.ptr + b.size < 2 ^ 64)
    (hptr : ptr + size < 2 ^ 64)
    (hmlf : fm_merge_left l ptr (find_low l ptr) = false)
    (hmrf : fm_merge_right l ptr size (find_low l ptr) = false) :
    blocks_sorted (l.insertIdx (find_low l ptr) ⟨ptr, size⟩) ∧
    blocks_nonabut (l.insertIdx (find_low l ptr) ⟨ptr, size⟩) ∧
    ∀ x, covers (l.insertIdx (find_low l ptr) ⟨ptr, size⟩) x ↔
      covers l x ∨ (ptr ≤ x ∧ x < ptr + size) := by
  obtain ⟨hidxle, hidxlt, hidxge⟩ := find_low_spec l ptr hsorted
  have hml : ¬ (0 < find_low l ptr ∧
      ((l.getD (find_low l ptr - 1) ⟨0, 0⟩).ptr +
        (l.getD (find_low l ptr - 1) ⟨0, 0⟩).size) % UINTPTR_MOD = ptr) := by
    rintro ⟨h1, h2⟩
    rw [fm_merge_left, decide_eq_true h1, Bool.true_and] at hmlf
    exact absurd h2 (of_decide_eq_false hmlf)
  have hmr : ¬ (find_low l ptr < l.length ∧
      (ptr + size) % UINTPTR_MOD = (l.getD (find_low l ptr) ⟨0, 0⟩).ptr) := by
    rintro ⟨h1, h2⟩
    rw [fm_merge_right, decide_eq_true h1, Bool.true_and] at hmrf
    exact absurd h2 (of_decide_eq_false hmrf)
  have hTlt : ∀ a ∈ l.take (find_low l ptr), a.ptr < ptr := by
    intro a ha
    obtain ⟨i, hin, hil, hbe⟩ := mem_take_idx l _ a ha
    rw [hbe]
    exact hidxlt i hin
  have hDgt : ∀ b ∈ l.drop (find_low l ptr), ptr < b.ptr := by
    intro b hb
    obtain ⟨i, hin, hil, hbe⟩ := mem_drop_idx l _ b hb
    have hge : ptr ≤ (l.getD i ⟨0, 0⟩).ptr := hidxge i hin hil
    rcases Nat.lt_or_ge ptr (l.getD i ⟨0, 0⟩).ptr with h | h
    · rw [hbe]
      exact h
    · exfalso
      have heq : (l.getD i ⟨0, 0⟩).ptr = ptr := le_antisymm h hge
      have hmem : l.getD i ⟨0, 0⟩ ∈ l := by
        rw [List.getD_eq_getElem _ _ hil]
        exact List.getElem_mem hil
      rcases Nat.eq_zero_or_pos size with hsz | hsz
      · rcases Nat.eq_or_lt_of_le hin with hi0 | higt
        · apply hmr
          constructor
          · rw [hi0]
            exact hil
          · rw [hsz, Nat.add_zero, umod_eq ptr (by omega), hi0]
            exact heq.symm
        · have hidxlen : find_low l ptr < l.length := lt_trans higt hil
          have hs1 := hidxge (find_low l ptr) le_rfl hidxlen
          have hs2 := blocks_sorted_lt hsorted higt hil
          omega
      · have hposb := hpos _ hmem
        exact hdisj _ hmem ptr le_rfl (by omega) ⟨by omega, by omega⟩
  have hDge : ∀ b ∈ l.drop (find_low l ptr), ptr ≤ b.ptr :=
    fun b hb => le_of_lt (hDgt b hb)
  have hs2 : blocks_sorted
      (l.take (find_low l ptr) ++ l.drop (find_low l ptr)) := by
    rw [List.take_append_drop]
    exact hsorted
  have hn2 : blocks_nonabut
      (l.take (find_low l ptr) ++ l.drop (find_low l ptr)) := by
    rw [List.take_append_drop]
    exact hnab
  unfold blocks_sorted at hs2
  unfold blocks_nonabut at hn2
  rw [List.pairwise_append] at hs2
  rw [List.chain'_append] at hn2
  obtain ⟨hsT, hsD, -⟩ := hs2
  obtain ⟨hnT, hnD, -⟩ := hn2
  have hlastA : ∀ a ∈ (l.take (find_low l ptr)).getLast?,
      a.ptr + a.size ≠ ptr := by
    intro a ha
    rcases Nat.eq_zero_or_pos (find_low l ptr) with h0 | hposidx
    · rw [h0] at ha
      simp at ha
    · rw [getLast_take l _ hposidx hidxle] at ha
      have hae := Option.mem_some_iff.mp ha
      subst hae
      intro heq
      apply hml
      refine ⟨hposidx, ?_⟩
      have hm1 : find_low l ptr - 1 < l.length := by omega
      have hmem : l.getD (find_low l ptr - 1) ⟨0, 0⟩ ∈ l := by
        rw [List.getD_eq_getElem _ _ hm1]
        exact List.getElem_mem hm1
      rw [umod_eq _ (hbnd _ hmem)]
      exact heq
  have hheadB : ∀ b ∈ (l.drop (find_low l ptr)).head?,
      ptr + size ≠ b.ptr := by
    intro b hb
    rcases Nat.lt_or_ge (find_low l ptr) l.length with hlt | hge
    · rw [head_drop l _ hlt] at hb
      have hbe := Option.mem_some_iff.mp hb
      subst hbe
      intro heq
      apply hmr
      exact ⟨hlt, by rw [umod_eq _ hptr]; exact heq⟩
    · rw [List.drop_eq_nil_of_le hge] at hb
      simp at hb
  have hre := rebuild_sorted_nonabut (l.take (find_low l ptr))
    (l.drop (find_low l ptr)) ⟨ptr, size⟩ hsT hsD hnT hnD hTlt hDgt
    hlastA hheadB
  rw [insertIdx_shape l (find_low l ptr) hidxle ⟨ptr, size⟩]
  refine ⟨hre.1, hre.2, ?_⟩
  intro x
  rw [covers_append, covers_cons]
  have hcov : covers l x ↔
      covers (l.take (find_low l ptr)) x ∨
      covers (l.drop (find_low l ptr)) x := by
    conv_lhs => rw [← List.take_append_drop (find_low l ptr) l]
    rw [covers_append]
  rw [hcov]
  tauto

end MemArena

namespace MemArena

/-- The merge-left branch of free_memory: extending the left neighbor in
place preserves order and non-abutment and adds exactly the freed interval
to the union. -/
theorem c3aux_left (l : List FreeBlock) (ptr size : Nat)
    (hsorted : blocks_sorted l) (hnab : blocks_nonabut l)
    (hbnd : ∀ b ∈ l, b.ptr + b.size < 2 ^ 64)
    (hptr : ptr + size < 2 ^ 64)
    (hmlt : fm_merge_left l ptr (find_low l ptr) = true)
    (hmrf : fm_merge_right l ptr size (find_low l ptr) = false) :
    blocks_sorted (l.set (find_low l ptr - 1)
      ⟨(l.getD (find_low l ptr - 1) ⟨0, 0⟩).ptr,
        ((l.getD (find_low l ptr - 1) ⟨0, 0⟩).size + size) % UINTPTR_MOD⟩) ∧
    blocks_nonabut (l.set (find_low l ptr - 1)
      ⟨(l.getD (find_low l ptr - 1) ⟨0, 0⟩).ptr,
        ((l.getD (find_low l ptr - 1) ⟨0, 0⟩).size + size) % UINTPTR_MOD⟩) ∧
    ∀ x, covers (l.set (find_low l ptr - 1)
      ⟨(l.getD (find_low l ptr - 1) ⟨0, 0⟩).ptr,
        ((l.getD (find_low l ptr - 1) ⟨0, 0⟩).size + size) % UINTPTR_MOD⟩) x ↔
      covers l x ∨ (ptr ≤ x ∧ x < ptr + size) := by
  obtain ⟨hidxle, hidxlt, hidxge⟩ := find_low_spec l ptr hsorted
  rw [fm_merge_left, Bool.and_eq_true, decide_eq_true_eq,
    decide_eq_true_eq] at hmlt
  obtain ⟨hidx0, hml2'⟩ := hmlt
  have hmr : ¬ (find_low l ptr < l.length ∧
      (ptr + size) % UINTPTR_MOD = (l.getD (find_low l ptr) ⟨0, 0⟩).ptr) := by
    rintro ⟨h1, h2⟩
    rw [fm_merge_right, decide_eq_true h1, Bool.true_and] at hmrf
    exact absurd h2 (of_decide_eq_false hmrf)
  have hj : find_low l ptr - 1 < l.length := by omega
  have hleftmem : l.getD (find_low l ptr - 1) ⟨0, 0⟩ ∈ l := by
    rw [List.getD_eq_getElem _ _ hj]
    exact List.getElem_mem hj
  have hml2 : (l.getD (find_low l ptr - 1) ⟨0, 0⟩).ptr +
      (l.getD (find_low l ptr - 1) ⟨0, 0⟩).size = ptr := by
    rw [umod_eq _ (hbnd _ hleftmem)] at hml2'
    exact hml2'
  have hmod : ((l.getD (find_low l ptr - 1) ⟨0, 0⟩).size + size) % UINTPTR_MOD
      = (l.getD (find_low l ptr - 1) ⟨0, 0⟩).size + size :=
    umod_eq _ (by omega)
  rw [hmod]
  have harr : find_low l ptr - 1 + 1 = find_low l ptr := by omega
  have hshape := set_shape l (find_low l ptr - 1) hj
    ⟨(l.getD (find_low l ptr - 1) ⟨0, 0⟩).ptr,
      (l.getD (find_low l ptr - 1) ⟨0, 0⟩).size + size⟩
  rw [harr] at hshape
  rw [hshape]
  have hTD := take_get_drop ⟨0, 0⟩ l (find_low l ptr - 1) hj
  rw [harr] at hTD
  have hs2 : blocks_sorted (l.take (find_low l ptr - 1) ++
      l.getD (find_low l ptr - 1) ⟨0, 0⟩ :: l.drop (find_low l ptr)) := by
    rw [← hTD]
    exact hsorted
  have hn2 : blocks_nonabut (l.take (find_low l ptr - 1) ++
      l.getD (find_low l ptr - 1) ⟨0, 0⟩ :: l.drop (find_low l ptr)) := by
    rw [← hTD]
    exact hnab
  obtain ⟨hsT, hsD, hTlt, hDgt, hcross, hnT, hnD, hlastT, hheadD⟩ :=
    split_sorted_nonabut _ _ _ hs2 hn2
  have hheadB : ∀ b ∈ (l.drop (find_low l ptr)).head?,
      (l.getD (find_low l ptr - 1) ⟨0, 0⟩).ptr +
        ((l.getD (find_low l ptr - 1) ⟨0, 0⟩).size + size) ≠ b.ptr := by
    intro b hb
    rcases Nat.lt_or_ge (find_low l ptr) l.length with hlt | hge
    · rw [head_drop l _ hlt] at hb
      have hbe := Option.mem_some_iff.mp hb
      subst hbe
      intro heq
      apply hmr
      refine ⟨hlt, ?_⟩
      rw [umod_eq _ hptr]
      omega
    · rw [List.drop_eq_nil_of_le hge] at hb
      simp at hb
  have hre := rebuild_sorted_nonabut (l.take (find_low l ptr - 1))
    (l.drop (find_low l ptr))
    ⟨(l.getD (find_low l ptr - 1) ⟨0, 0⟩).ptr,
      (l.getD (find_low l ptr - 1) ⟨0, 0⟩).size + size⟩
    hsT hsD hnT hnD hTlt hDgt hlastT hheadB
  refine ⟨hre.1, hre.2, ?_⟩
  intro x
  rw [covers_append, covers_cons]
  have hcov : covers l x ↔ covers (l.take (find_low l ptr - 1)) x ∨
      ((l.getD (find_low l ptr - 1) ⟨0, 0⟩).ptr ≤ x ∧
        x < (l.getD (find_low l ptr - 1) ⟨0, 0⟩).ptr +
          (l.getD (find_low l ptr - 1) ⟨0, 0⟩).size) ∨
      covers (l.drop (find_low l ptr)) x := by
    conv_lhs => rw [hTD]
    rw [covers_append, covers_cons]
  rw [hcov]
  dsimp only
  have harith : ((l.getD (find_low l ptr - 1) ⟨0, 0⟩).ptr ≤ x ∧
      x < (l.getD (find_low l ptr - 1) ⟨0, 0⟩).ptr +
        ((l.getD (find_low l ptr - 1) ⟨0, 0⟩).size + size)) ↔
      (((l.getD (find_low l ptr - 1) ⟨0, 0⟩).ptr ≤ x ∧
        x < (l.getD (find_low l ptr - 1) ⟨0, 0⟩).ptr +
          (l.getD (find_low l ptr - 1) ⟨0, 0⟩).size) ∨
        (ptr ≤ x ∧ x < ptr + size)) := by
    omega
  rw [harith]
  constructor
  · rintro (h | (h | h) | h)
    · exact Or.inl (Or.inl h)
    · exact Or.inl (Or.inr (Or.inl h))
    · exact Or.inr h
    · exact Or.inl (Or.inr (Or.inr h))
  · rintro ((h | h | h) | h)
    · exact Or.inl h
    · exact Or.inr (Or.inl (Or.inl h))
    · exact Or.inr (Or.inr h)
    · exact Or.inr (Or.inl (Or.inr h))

end MemArena

namespace MemArena

/-- The merge-right branch of free_memory: moving the right neighbor's
start down to the freed pointer preserves order and non-abutment and adds
exactly the freed interval to the union. -/
theorem c3aux_right (l : List FreeBlock) (ptr size : Nat)
    (hsorted : blocks_sorted l) (hnab : blocks_nonabut l)
    (hbnd : ∀ b ∈ l, b.ptr + b.size < 2 ^ 64)
    (hptr : ptr + size < 2 ^ 64)
    (hmlf : fm_merge_left l ptr (find_low l ptr) = false)
    (hmrt : fm_merge_right l ptr size (find_low l ptr) = true) :
    blocks_sorted (l.set (find_low l ptr)
      ⟨ptr, ((l.getD (find_low l ptr) ⟨0, 0⟩).size + size) % UINTPTR_MOD⟩) ∧
    blocks_nonabut (l.set (find_low l ptr)
      ⟨ptr, ((l.getD (find_low l ptr) ⟨0, 0⟩).size + size) % UINTPTR_MOD⟩) ∧
    ∀ x, covers (l.set (find_low l ptr)
      ⟨ptr, ((l.getD (find_low l ptr) ⟨0, 0⟩).size + size) % UINTPTR_MOD⟩) x ↔
      covers l x ∨ (ptr ≤ x ∧ x < ptr + size) := by
  obtain ⟨hidxle, hidxlt, hidxge⟩ := find_low_spec l ptr hsorted
  rw [fm_merge_right, Bool.and_eq_true, decide_eq_true_eq,
    decide_eq_true_eq] at hmrt
  obtain ⟨hlenlt, hmr2'⟩ := hmrt
  have hml : ¬ (0 < find_low l ptr ∧
      ((l.getD (find_low l ptr - 1) ⟨0, 0⟩).ptr +
        (l.getD (find_low l ptr - 1) ⟨0, 0⟩).size) % UINTPTR_MOD = ptr) := by
    rintro ⟨h1, h2⟩
    rw [fm_merge_left, decide_eq_true h1, Bool.true_and] at hmlf
    exact absurd h2 (of_decide_eq_false hmlf)
  have hrightmem : l.getD (find_low l ptr) ⟨0, 0⟩ ∈ l := by
    rw [List.getD_eq_getElem _ _ hlenlt]
    exact List.getElem_mem hlenlt
  have hmr2 : ptr + size = (l.getD (find_low l ptr) ⟨0, 0⟩).ptr := by
    rw [umod_eq _ hptr] at hmr2'
    exact hmr2'
  have hbndr := hbnd _ hrightmem
  have hmod : ((l.getD (find_low l ptr) ⟨0, 0⟩).size + size) % UINTPTR_MOD
      = (l.getD (find_low l ptr) ⟨0, 0⟩).size + size :=
    umod_eq _ (by omega)
  rw [hmod]
  have hshape := set_shape l (find_low l ptr) hlenlt
    ⟨ptr, (l.getD (find_low l ptr) ⟨0, 0⟩).size + size⟩
  rw [hshape]
  have hTD := take_get_drop ⟨0, 0⟩ l (find_low l ptr) hlenlt
  have hs2 : blocks_sorted (l.take (find_low l ptr) ++
      l.getD (find_low l ptr) ⟨0, 0⟩ :: l.drop (find_low l ptr + 1)) := by
    rw [← hTD]
    exact hsorted
  have hn2 : blocks_nonabut (l.take (find_low l ptr) ++
      l.getD (find_low l ptr) ⟨0, 0⟩ :: l.drop (find_low l ptr + 1)) := by
    rw [← hTD]
    exact hnab
  obtain ⟨hsT, hsD, hTltr, hDgtr, hcross, hnT, hnD, hlastTr, hheadD⟩ :=
    split_sorted_nonabut _ _ _ hs2 hn2
  have hAnb : ∀ a ∈ l.take (find_low l ptr), a.ptr < ptr := by
    intro a ha
    obtain ⟨i, hin, hil, hbe⟩ := mem_take_idx l _ a ha
    rw [hbe]
    exact hidxlt i hin
  have hnbB : ∀ b ∈ l.drop (find_low l ptr + 1), ptr < b.ptr := by
    intro b hb
    have := hDgtr b hb
    omega
  have hlastA : ∀ a ∈ (l.take (find_low l ptr)).getLast?,
      a.ptr + a.size ≠ ptr := by
    intro a ha
    rcases Nat.eq_zero_or_pos (find_low l ptr) with h0 | hposidx
    · rw [h0] at ha
      simp at ha
    · rw [getLast_take l _ hposidx hidxle] at ha
      have hae := Option.mem_some_iff.mp ha
      subst hae
      intro heq
      apply hml
      refine ⟨hposidx, ?_⟩
      have hm1 : find_low l ptr - 1 < l.length := by omega
      have hmem : l.getD (find_low l ptr - 1) ⟨0, 0⟩ ∈ l := by
        rw [List.getD_eq_getElem _ _ hm1]
        exact List.getElem_mem hm1
      rw [umod_eq _ (hbnd _ hmem)]
      exact heq
  have hheadB : ∀ b ∈ (l.drop (find_low l ptr + 1)).head?,
      ptr + ((l.getD (find_low l ptr) ⟨0, 0⟩).size + size) ≠ b.ptr := by
    intro b hb heq
    exact hheadD b hb (by omega)
  have hre := rebuild_sorted_nonabut (l.take (find_low l ptr))
    (l.drop (find_low l ptr + 1))
    ⟨ptr, (l.getD (find_low l ptr) ⟨0, 0⟩).size + size⟩
    hsT hsD hnT hnD hAnb hnbB hlastA hheadB
  refine ⟨hre.1, hre.2, ?_⟩
  intro x
  rw [covers_append, covers_cons]
  have hcov : covers l x ↔ covers (l.take (find_low l ptr)) x ∨
      ((l.getD (find_low l ptr) ⟨0, 0⟩).ptr ≤ x ∧
        x < (l.getD (find_low l ptr) ⟨0, 0⟩).ptr +
          (l.getD (find_low l ptr) ⟨0, 0⟩).size) ∨
      covers (l.drop (find_low l ptr + 1)) x := by
    conv_lhs => rw [hTD]
    rw [covers_append, covers_cons]
  rw [hcov]
  dsimp only
  have harith : (ptr ≤ x ∧
      x < ptr + ((l.getD (find_low l ptr) ⟨0, 0⟩).size + size)) ↔
      ((ptr ≤ x ∧ x < ptr + size) ∨
        ((l.getD (find_low l ptr) ⟨0, 0⟩).ptr ≤ x ∧
          x < (l.getD (find_low l ptr) ⟨0, 0⟩).ptr +
            (l.getD (find_low l ptr) ⟨0, 0⟩).size)) := by
    omega
  rw [harith]
  constructor
  · rintro (h | (h | h) | h)
    · exact Or.inl (Or.inl h)
    · exact Or.inr h
    · exact Or.inl (Or.inr (Or.inl h))
    · exact Or.inl (Or.inr (Or.inr h))
  · rintro ((h | h | h) | h)
    · exact Or.inl h
    · exact Or.inr (Or.inl (Or.inr h))
    · exact Or.inr (Or.inr h)
    · exact Or.inr (Or.inl (Or.inl h))

end MemArena

namespace MemArena

/-- Indexed form of `eraseIdx_append_length`. -/
theorem eraseIdx_append_length2 {α : Type} (A B : List α) (n : Nat)
    (h : A.length = n) : (A ++ B).eraseIdx n = A ++ B.tail := by
  subst h
  exact eraseIdx_append_length A B

/-- The three-way merge branch of free_memory: absorbing the freed interval
and the right neighbor into the left neighbor, then erasing the right
entry, preserves order and non-abutment and adds exactly the freed interval
to the union. -/
theorem c3aux_both (l : List FreeBlock) (ptr size : Nat)
    (hsorted : blocks_sorted l) (hnab : blocks_nonabut l)
    (hbnd : ∀ b ∈ l, b.ptr + b.size < 2 ^ 64)
    (hptr : ptr + size < 2 ^ 64)
    (hmlt : fm_merge_left l ptr (find_low l ptr) = true)
    (hmrt : fm_merge_right l ptr size (find_low l ptr) = true) :
    blocks_sorted ((l.set (find_low l ptr - 1)
      ⟨(l.getD (find_low l ptr - 1) ⟨0, 0⟩).ptr,
        ((l.getD (find_low l ptr - 1) ⟨0, 0⟩).size +
          (size + (l.getD (find_low l ptr) ⟨0, 0⟩).size) % UINTPTR_MOD) %
          UINTPTR_MOD⟩).eraseIdx (find_low l ptr)) ∧
    blocks_nonabut ((l.set (find_low l ptr - 1)
      ⟨(l.getD (find_low l ptr - 1) ⟨0, 0⟩).ptr,
        ((l.getD (find_low l ptr - 1) ⟨0, 0⟩).size +
          (size + (l.getD (find_low l ptr) ⟨0, 0⟩).size) % UINTPTR_MOD) %
          UINTPTR_MOD⟩).eraseIdx (find_low l ptr)) ∧
    ∀ x, covers ((l.set (find_low l ptr - 1)
      ⟨(l.getD (find_low l ptr - 1) ⟨0, 0⟩).ptr,
        ((l.getD (find_low l ptr - 1) ⟨0, 0⟩).size +
          (size + (l.getD (find_low l ptr) ⟨0, 0⟩).size) % UINTPTR_MOD) %
          UINTPTR_MOD⟩).eraseIdx (find_low l ptr)) x ↔
      covers l x ∨ (ptr ≤ x ∧ x < ptr + size) := by
  obtain ⟨hidxle, hidxlt, hidxge⟩ := find_low_spec l ptr hsorted
  rw [fm_merge_left, Bool.and_eq_true, decide_eq_true_eq,
    decide_eq_true_eq] at hmlt
  obtain ⟨hidx0, hml2'⟩ := hmlt
  rw [fm_merge_right, Bool.and_eq_true, decide_eq_true_eq,
    decide_eq_true_eq] at hmrt
  obtain ⟨hlenlt, hmr2'⟩ := hmrt
  have hj : find_low l ptr - 1 < l.length := by omega
  have hleftmem : l.getD (find_low l ptr - 1) ⟨0, 0⟩ ∈ l := by
    rw [List.getD_eq_getElem _ _ hj]
    exact List.getElem_mem hj
  have hrightmem : l.getD (find_low l ptr) ⟨0, 0⟩ ∈ l := by
    rw [List.getD_eq_getElem _ _ hlenlt]
    exact List.getElem_mem hlenlt
  have hml2 : (l.getD (find_low l ptr - 1) ⟨0, 0⟩).ptr +
      (l.getD (find_low l ptr - 1) ⟨0, 0⟩).size = ptr := by
    rw [umod_eq _ (hbnd _ hleftmem)] at hml2'
    exact hml2'
  have hmr2 : ptr + size = (l.getD (find_low l ptr) ⟨0, 0⟩).ptr := by
    rw [umod_eq _ hptr] at hmr2'
    exact hmr2'
  have hbndr := hbnd _ hrightmem
  have hmod1 : (size + (l.getD (find_low l ptr) ⟨0, 0⟩).size) % UINTPTR_MOD
      = size + (l.getD (find_low l ptr) ⟨0, 0⟩).size :=
    umod_eq _ (by omega)
  rw [hmod1]
  have hmod2 : ((l.getD (find_low l ptr - 1) ⟨0, 0⟩).size +
      (size + (l.getD (find_low l ptr) ⟨0, 0⟩).size)) % UINTPTR_MOD
      = (l.getD (find_low l ptr - 1) ⟨0, 0⟩).size +
        (size + (l.getD (find_low l ptr) ⟨0, 0⟩).size) :=
    umod_eq _ (by omega)
  rw [hmod2]
  have harr : find_low l ptr - 1 + 1 = find_low l ptr := by omega
  have hdropidx : l.drop (find_low l ptr) =
      l.getD (find_low l ptr) ⟨0, 0⟩ :: l.drop (find_low l ptr + 1) := by
    rw [List.drop_eq_getElem_cons hlenlt, List.getD_eq_getElem _ _ hlenlt]
  have hT'len : (l.take (find_low l ptr - 1)).length = find_low l ptr - 1 := by
    rw [List.length_take]
    omega
  have hset := set_shape l (find_low l ptr - 1) hj
    ⟨(l.getD (find_low l ptr - 1) ⟨0, 0⟩).ptr,
      (l.getD (find_low l ptr - 1) ⟨0, 0⟩).size +
        (size + (l.getD (find_low l ptr) ⟨0, 0⟩).size)⟩
  rw [harr, hdropidx] at hset
  have hlen2 : (l.take (find_low l ptr - 1) ++
      [(⟨(l.getD (find_low l ptr - 1) ⟨0, 0⟩).ptr,
        (l.getD (find_low l ptr - 1) ⟨0, 0⟩).size +
          (size + (l.getD (find_low l ptr) ⟨0, 0⟩).size)⟩ : FreeBlock)]).length
      = find_low l ptr := by
    rw [List.length_append, hT'len]
    simp only [List.length_singleton]
    omega
  have hshape : (l.set (find_low l ptr - 1)
      ⟨(l.getD (find_low l ptr - 1) ⟨0, 0⟩).ptr,
        (l.getD (find_low l ptr - 1) ⟨0, 0⟩).size +
          (size + (l.getD (find_low l ptr) ⟨0, 0⟩).size)⟩).eraseIdx
      (find_low l ptr) =
      l.take (find_low l ptr - 1) ++
        ⟨(l.getD (find_low l ptr - 1) ⟨0, 0⟩).ptr,
          (l.getD (find_low l ptr - 1) ⟨0, 0⟩).size +
            (size + (l.getD (find_low l ptr) ⟨0, 0⟩).size)⟩ ::
        l.drop (find_low l ptr + 1) := by
    rw [hset]
    have hassoc : l.take (find_low l ptr - 1) ++
        (⟨(l.getD (find_low l ptr - 1) ⟨0, 0⟩).ptr,
          (l.getD (find_low l ptr - 1) ⟨0, 0⟩).size +
            (size + (l.getD (find_low l ptr) ⟨0, 0⟩).size)⟩ : FreeBlock) ::
        l.getD (find_low l ptr) ⟨0, 0⟩ :: l.drop (find_low l ptr + 1) =
        (l.take (find_low l ptr - 1) ++
          [⟨(l.getD (find_low l ptr - 1) ⟨0, 0⟩).ptr,
            (l.getD (find_low l ptr - 1) ⟨0, 0⟩).size +
              (size + (l.getD (find_low l ptr) ⟨0, 0⟩).size)⟩]) ++
          l.getD (find_low l ptr) ⟨0, 0⟩ :: l.drop (find_low l ptr + 1) := by
      simp
    rw [hassoc, eraseIdx_append_length2 _ _ _ hlen2]
    simp
  rw [hshape]
  have hTD := take_get_drop ⟨0, 0⟩ l (find_low l ptr - 1) hj
  rw [harr, hdropidx] at hTD
  have hs2 : blocks_sorted (l.take (find_low l ptr - 1) ++
      l.getD (find_low l ptr - 1) ⟨0, 0⟩ ::
        (l.getD (find_low l ptr) ⟨0, 0⟩ :: l.drop (find_low l ptr + 1))) := by
    rw [← hTD]
    exact hsorted
  have hn2 : blocks_nonabut (l.take (find_low l ptr - 1) ++
      l.getD (find_low l ptr - 1) ⟨0, 0⟩ ::
        (l.getD (find_low l ptr) ⟨0, 0⟩ :: l.drop (find_low l ptr + 1))) := by
    rw [← hTD]
    exact hnab
  obtain ⟨hsT', hsRD', hT'lt, hRD'gt, hcross1, hnT', hnRD', hlastT', -⟩ :=
    split_sorted_nonabut _ _ _ hs2 hn2
  obtain ⟨-, hsD', -, hD'gt, -, -, hnD', -, hheadD'⟩ :=
    split_sorted_nonabut [] (l.drop (find_low l ptr + 1))
      (l.getD (find_low l ptr) ⟨0, 0⟩) hsRD' hnRD'
  have hnbB : ∀ b ∈ l.drop (find_low l ptr + 1),
      (l.getD (find_low l ptr - 1) ⟨0, 0⟩).ptr < b.ptr := by
    intro b hb
    exact hRD'gt b (List.mem_cons_of_mem _ hb)
  have hheadB : ∀ b ∈ (l.drop (find_low l ptr + 1)).head?,
      (l.getD (find_low l ptr - 1) ⟨0, 0⟩).ptr +
        ((l.getD (find_low l ptr - 1) ⟨0, 0⟩).size +
          (size + (l.getD (find_low l ptr) ⟨0, 0⟩).size)) ≠ b.ptr := by
    intro b hb heq
    exact hheadD' b hb (by omega)
  have hre := rebuild_sorted_nonabut (l.take (find_low l ptr - 1))
    (l.drop (find_low l ptr + 1))
    ⟨(l.getD (find_low l ptr - 1) ⟨0, 0⟩).ptr,
      (l.getD (find_low l ptr - 1) ⟨0, 0⟩).size +
        (size + (l.getD (find_low l ptr) ⟨0, 0⟩).size)⟩
    hsT' hsD' hnT' hnD' hT'lt hnbB hlastT' hheadB
  refine ⟨hre.1, hre.2, ?_⟩
  intro x
  rw [covers_append, covers_cons]
  have hcov : covers l x ↔ covers (l.take (find_low l ptr - 1)) x ∨
      ((l.getD (find_low l ptr - 1) ⟨0, 0⟩).ptr ≤ x ∧
        x < (l.getD (find_low l ptr - 1) ⟨0, 0⟩).ptr +
          (l.getD (find_low l ptr - 1) ⟨0, 0⟩).size) ∨
      (((l.getD (find_low l ptr) ⟨0, 0⟩).ptr ≤ x ∧
        x < (l.getD (find_low l ptr) ⟨0, 0⟩).ptr +
          (l.getD (find_low l ptr) ⟨0, 0⟩).size) ∨
      covers (l.drop (find_low l ptr + 1)) x) := by
    conv_lhs => rw [hTD]
    rw [covers_append, covers_cons, covers_cons]
  rw [hcov]
  dsimp only
  have harith : ((l.getD (find_low l ptr - 1) ⟨0, 0⟩).ptr ≤ x ∧
      x < (l.getD (find_low l ptr - 1) ⟨0, 0⟩).ptr +
        ((l.getD (find_low l ptr - 1) ⟨0, 0⟩).size +
          (size + (l.getD (find_low l ptr) ⟨0, 0⟩).size))) ↔
      (((l.getD (find_low l ptr - 1) ⟨0, 0⟩).ptr ≤ x ∧
        x < (l.getD (find_low l ptr - 1) ⟨0, 0⟩).ptr +
          (l.getD (find_low l ptr - 1) ⟨0, 0⟩).size) ∨
        (ptr ≤ x ∧ x < ptr + size) ∨
        ((l.getD (find_low l ptr) ⟨0, 0⟩).ptr ≤ x ∧
          x < (l.getD (find_low l ptr) ⟨0, 0⟩).ptr +
            (l.getD (find_low l ptr) ⟨0, 0⟩).size)) := by
    omega
  rw [harith]
  constructor
  · rintro (h | (h | h | h) | h)
    · exact Or.inl (Or.inl h)
    · exact Or.inl (Or.inr (Or.inl h))
    · exact Or.inr h
    · exact Or.inl (Or.inr (Or.inr (Or.inl h)))
    · exact Or.inl (Or.inr (Or.inr (Or.inr h)))
  · rintro ((h | h | h | h) | h)
    · exact Or.inl h
    · exact Or.inr (Or.inl (Or.inl h))
    · exact Or.inr (Or.inl (Or.inr (Or.inr h)))
    · exact Or.inr (Or.inr h)
    · exact Or.inr (Or.inl (Or.inr (Or.inl h)))

end MemArena

namespace MemArena

/-- C3 (amended): for a free whose interval is disjoint from every current
entry, on a free-list that is strictly ascending, non-abutting, and whose
entries all have positive length (and with no 64-bit wraparound), a Success
return leaves the free-list strictly ascending and non-abutting, and the
union of its intervals equals the old union plus `[ptr, ptr + size)`. -/
theorem c3_free_memory_coalescing (handler : ArenaHandler) (ptr size : Nat)
    (ok : Bool) (h2 : ArenaHandler)
    (hsorted : blocks_sorted handler.free_blocks)
    (hnab : blocks_nonabut handler.free_blocks)
    (hpos : ∀ b ∈ handler.free_blocks, 0 < b.size)
    (hdisj : ∀ b ∈ handler.free_blocks, fb_disjoint ptr size b)
    (hbnd : ∀ b ∈ handler.free_blocks, b.ptr + b.size < 2 ^ 64)
    (hptr : ptr + size < 2 ^ 64)
    (hfree : free_memory handler ptr size ok = (ErrorCode.Success, h2)) :
    blocks_sorted h2.free_blocks ∧ blocks_nonabut h2.free_blocks ∧
    ∀ x, covers h2.free_blocks x ↔
      covers handler.free_blocks x ∨ (ptr ≤ x ∧ x < ptr + size) := by
  simp only [free_memory] at hfree
  cases hml : fm_merge_left handler.free_blocks ptr
      (find_low handler.free_blocks ptr) with
  | true =>
    rw [hml] at hfree
    cases hmr : fm_merge_right handler.free_blocks ptr size
        (find_low handler.free_blocks ptr) with
    | true =>
      rw [hmr, Bool.and_self, if_pos rfl] at hfree
      rw [Prod.mk.injEq] at hfree
      rw [← hfree.2]
      exact c3aux_both handler.free_blocks ptr size hsorted hnab hbnd hptr
        hml hmr
    | false =>
      rw [hmr, Bool.and_false, if_neg Bool.false_ne_true, if_pos rfl] at hfree
      rw [Prod.mk.injEq] at hfree
      rw [← hfree.2]
      exact c3aux_left handler.free_blocks ptr size hsorted hnab hbnd hptr
        hml hmr
  | false =>
    rw [hml] at hfree
    cases hmr : fm_merge_right handler.free_blocks ptr size
        (find_low handler.free_blocks ptr) with
    | true =>
      rw [hmr, Bool.false_and, if_neg Bool.false_ne_true,
        if_neg Bool.false_ne_true, if_pos rfl] at hfree
      rw [Prod.mk.injEq] at hfree
      rw [← hfree.2]
      exact c3aux_right handler.free_blocks ptr size hsorted hnab hbnd hptr
        hml hmr
    | false =>
      rw [hmr, Bool.and_self, if_neg Bool.false_ne_true,
        if_neg Bool.false_ne_true, if_neg Bool.false_ne_true] at hfree
      by_cases hlen : handler.free_blocks.length =
          handler.ds_info.free_blocks_capacity
      · rw [if_pos hlen] at hfree
        rcases hrz : resize_free_blocks handler ok with ⟨e, hh⟩
        rw [hrz] at hfree
        cases e
        · rw [Prod.mk.injEq] at hfree
          rw [← hfree.2]
          exact c3aux_insert handler.free_blocks ptr size hsorted hnab hpos
            hdisj hbnd hptr hml hmr
        · exact absurd hfree (by simp)
        · exact absurd hfree (by simp)
      · rw [if_neg hlen] at hfree
        rw [Prod.mk.injEq] at hfree
        rw [← hfree.2]
        exact c3aux_insert handler.free_blocks ptr size hsorted hnab hpos
          hdisj hbnd hptr hml hmr

end MemArena

namespace MemArena

/-- C3 counterexample: with a zero-length entry `{100, 0}` the free-list
`[{100, 0}]` is strictly ascending and non-abutting, and the freed interval
`[100, 150)` is disjoint from the (empty) interval of every entry, yet
free_memory(100, 50) returns Success and leaves `[{100,50}, {100,0}]`,
which is not strictly ascending by start. -/
theorem c3_counterexample :
    blocks_sorted [(⟨100, 0⟩ : FreeBlock)] ∧
    blocks_nonabut [(⟨100, 0⟩ : FreeBlock)] ∧
    (∀ b ∈ [(⟨100, 0⟩ : FreeBlock)], fb_disjoint 100 50 b) ∧
    (free_memory ⟨⟨0, 50⟩, false, true, [], [⟨100, 0⟩]⟩ 100 50 true).1 =
      ErrorCode.Success ∧
    (free_memory ⟨⟨0, 50⟩, false, true, [], [⟨100, 0⟩]⟩ 100 50
      true).2.free_blocks = [⟨100, 50⟩, ⟨100, 0⟩] ∧
    ¬ blocks_sorted [(⟨100, 50⟩ : FreeBlock), ⟨100, 0⟩] := by
  refine ⟨?_, ?_, ?_, by decide, by decide, ?_⟩
  · unfold blocks_sorted
    simp
  · unfold blocks_nonabut
    simp
  · intro b hb x h1 h2 h3
    have hbe := List.mem_singleton.mp hb
    subst hbe
    simp at h3
    omega
  · intro hcon
    unfold blocks_sorted at hcon
    rw [List.pairwise_cons] at hcon
    have := hcon.1 ⟨100, 0⟩ (List.mem_singleton_self _)
    simp at this

/-- C3 witness: freeing the disjoint interval `[2000, 2100)` against the
positive-length free-list `[{1000, 300}]` inserts it, and the result is
sorted, non-abutting, and covers exactly the old union plus the freed
interval. -/
theorem c3_witness :
    blocks_sorted [(⟨1000, 300⟩ : FreeBlock), ⟨2000, 100⟩] ∧
    blocks_nonabut [(⟨1000, 300⟩ : FreeBlock), ⟨2000, 100⟩] ∧
    ∀ x, covers [(⟨1000, 300⟩ : FreeBlock), ⟨2000, 100⟩] x ↔
      covers [(⟨1000, 300⟩ : FreeBlock)] x ∨ (2000 ≤ x ∧ x < 2000 + 100) := by
  exact c3_free_memory_coalescing ⟨⟨0, 50⟩, false, true, [], [⟨1000, 300⟩]⟩
    2000 100 true ⟨⟨0, 50⟩, false, true, [], [⟨1000, 300⟩, ⟨2000, 100⟩]⟩
    (by unfold blocks_sorted; simp) (by unfold blocks_nonabut; simp)
    (by decide)
    (by
      intro b hb x h1 h2 h3
      have hbe := List.mem_singleton.mp hb
      subst hbe
      simp at h3
      omega)
    (by decide) (by decide) (by decide)

end MemArena
